import Mathlib

/-!
Verification of the `tek` editor core (`src/text.rs`, `src/editor.rs`,
`src/util.rs`, `src/terminal.rs`, `src/indexvec.rs`) against its
natural-language specification.

Modelling conventions:
* Rust `String` buffers are `List Char`; byte offsets become character
  offsets (all claims are offset/width-algebraic, so this is faithful).
* `usize`/`u16` become `Nat`.  None of the quantities the theorems mention
  can overflow their machine width for states that fit on a terminal, and
  `u16::saturating_sub`/`saturating_add` are modelled explicitly where the
  source uses them.
* Rust code that can panic (`.unwrap()`, `Vec` indexing, `assert!`) is
  modelled with `Option`: `none` is the panic.
* `Vec::insert`, `Vec::splice(a..=b, _)` and `Vec::remove` are modelled by
  `take`/`drop` surgery, which agrees with the Rust semantics for the
  in-range indices at which the source calls them.
-/

namespace Tek

/-! ## src/text.rs : the piece table -/

inductive PieceKind where
  | original
  | append
deriving DecidableEq

structure Piece where
  offset : Nat
  width : Nat
  kind : PieceKind
deriving DecidableEq

structure PiecePosition where
  piece_index : Nat
  relative_offset : Nat
deriving DecidableEq

structure PieceTable where
  original : List Char
  append : List Char
  pieces : List Piece
deriving DecidableEq

/-- `Piece::split` (text.rs:35-43). -/
def Piece.split (p : Piece) (relative_offset : Nat) : Piece × Piece :=
  (⟨p.offset, relative_offset, p.kind⟩,
   ⟨p.offset + relative_offset, p.width - relative_offset, p.kind⟩)

/-- Loop body of `PieceTable::find_piece` (text.rs:47-59): `piece_index` and
`current_offset` are the loop variables. -/
def findPieceAux (pieces : List Piece) (offset piece_index current_offset : Nat) :
    Option PiecePosition :=
  match pieces with
  | [] => none
  | piece :: rest =>
    let current := current_offset + piece.width
    if offset ≤ current then
      some ⟨piece_index, piece.width - (current - offset)⟩
    else
      findPieceAux rest offset (piece_index + 1) current

/-- `PieceTable::find_piece` (text.rs:47-59). -/
def PieceTable.find_piece (pieces : List Piece) (offset : Nat) : Option PiecePosition :=
  findPieceAux pieces offset 0 0

/-- `Vec::insert(i, a)` for `i ≤ xs.length`. -/
def listInsertAt (xs : List α) (i : Nat) (a : α) : List α :=
  xs.take i ++ a :: xs.drop i

/-- `Vec::splice(lo..=hi, repl)` for `lo ≤ hi < xs.length`. -/
def listSplice (xs : List α) (lo hi : Nat) (repl : List α) : List α :=
  xs.take lo ++ repl ++ xs.drop (hi + 1)

/-- `PieceTable::splice` (text.rs:61-63): zero-width pieces are dropped. -/
def PieceTable.splice (t : PieceTable) (lo hi : Nat) (repl : List Piece) : PieceTable :=
  { t with pieces := listSplice t.pieces lo hi (repl.filter (fun p => p.width != 0)) }

/-- `PieceTable::add_piece` (text.rs:65-69): returns the new piece and the
table with the grown append buffer. -/
def PieceTable.add_piece (t : PieceTable) (s : List Char) : Piece × PieceTable :=
  (⟨t.append.length, s.length, PieceKind.append⟩, { t with append := t.append ++ s })

/-- `PieceTable::insert` (text.rs:71-85).  `none` models the
`find_piece(..).unwrap()` panic. -/
def PieceTable.insert (t : PieceTable) (offset : Nat) (s : List Char) : Option PieceTable := do
  let position ← PieceTable.find_piece t.pieces offset
  let piece ← t.pieces.get? position.piece_index
  let (new, t1) := t.add_piece s
  if position.relative_offset = 0 then
    return { t1 with pieces := listInsertAt t1.pieces position.piece_index new }
  else if position.relative_offset = piece.width then
    return { t1 with pieces := listInsertAt t1.pieces (position.piece_index + 1) new }
  else
    let (l, r) := piece.split position.relative_offset
    return t1.splice position.piece_index position.piece_index [l, new, r]

/-- `PieceTable::remove` (text.rs:87-96). -/
def PieceTable.remove (t : PieceTable) (offset width : Nat) : Option PieceTable :=
  if width = 0 then
    some t
  else do
    let start ← PieceTable.find_piece t.pieces offset
    let stop ← PieceTable.find_piece t.pieces (offset + width)
    let ps ← t.pieces.get? start.piece_index
    let pe ← t.pieces.get? stop.piece_index
    let l := (ps.split start.relative_offset).1
    let r := (pe.split stop.relative_offset).2
    return t.splice start.piece_index stop.piece_index [l, r]

/-- Buffer selection in `PieceTable::string_for` (text.rs:98-104). -/
def PieceTable.buffer_for (t : PieceTable) (kind : PieceKind) : List Char :=
  match kind with
  | .original => t.original
  | .append => t.append

/-- `PieceTable::string_for` (text.rs:98-104): `&buffer[offset..offset+width]`. -/
def PieceTable.string_for (t : PieceTable) (piece : Piece) : List Char :=
  ((t.buffer_for piece.kind).drop piece.offset).take piece.width

/-- `PieceTable::gather` (text.rs:106-108). -/
def PieceTable.gather (t : PieceTable) : List Char :=
  (t.pieces.map t.string_for).flatten

/-- `impl From<String> for PieceTable` (text.rs:111-116). -/
def PieceTable.fromString (s : List Char) : PieceTable :=
  { original := s, append := [], pieces := [⟨0, s.length, PieceKind.original⟩] }

/-- `PieceTable::default()` (text.rs:27): empty buffers, no pieces. -/
def PieceTable.defaultTable : PieceTable :=
  { original := [], append := [], pieces := [] }

/-- A piece refers only to bytes actually present in its backing buffer.
Every `PieceTable` the Rust program builds satisfies this (otherwise
`string_for`'s slice would panic); it makes the `take`/`drop` model of the
slice exact. -/
def PieceTable.Wf (t : PieceTable) : Prop :=
  ∀ p ∈ t.pieces, p.offset + p.width ≤ (t.buffer_for p.kind).length

instance (t : PieceTable) : Decidable t.Wf := by
  unfold PieceTable.Wf; infer_instance

/-- Total width of a piece list. -/
def piecesWidth (ps : List Piece) : Nat := (ps.map Piece.width).sum

/-- `gather` restricted to an arbitrary piece list (same backing buffers). -/
def gatherL (t : PieceTable) (ps : List Piece) : List Char :=
  (ps.map t.string_for).flatten


/-! ## src/terminal.rs and src/util.rs : geometry helpers -/

structure Position where
  x : Nat
  y : Nat
deriving DecidableEq

structure Size where
  width : Nat
  height : Nat
deriving DecidableEq

inductive Direction where
  | up
  | down
  | left
  | right
deriving DecidableEq

/-- `u16::MAX`, the saturation bound of `saturating_add`. -/
def u16Max : Nat := 65535

/-- `Position::move_toward` (terminal.rs:57-64): saturating u16 arithmetic. -/
def Position.move_toward (p : Position) (direction : Direction) : Position :=
  match direction with
  | .up => ⟨p.x, p.y - 1⟩
  | .down => ⟨p.x, min (p.y + 1) u16Max⟩
  | .left => ⟨p.x - 1, p.y⟩
  | .right => ⟨min (p.x + 1) u16Max, p.y⟩

/-- `Position::offset` (terminal.rs:65-73). -/
def Position.offset (p other : Position) : Position :=
  ⟨p.x + other.x, p.y + other.y⟩

/-- `util::rotate_forward` (util.rs:9-16); the source's `min`/`max`
parameters are `lo`/`hi` here. -/
def rotate_forward (lo hi n : Nat) : Nat :=
  if n + 1 = hi then lo else n + 1

/-- `util::rotate_backward` (util.rs:18-20). -/
def rotate_backward (lo hi n : Nat) : Nat :=
  (if n = lo then hi else n) - 1

/-! ## src/editor.rs : windows, tabs, editor

`WindowID`/`BufferID` are `usize` newtypes over arena indices
(indexvec.rs); they are modelled as `Nat`.  The `settings` value objects,
the buffer arena and the `Mode` enum are carried by the source but never
read or written by any operation modelled here (`edit` does file I/O and is
out of scope), so they are omitted from the state. -/

structure View where
  offset : Nat
  size : Size
  buffer : Nat
deriving DecidableEq

/-- `editor::Window` (editor.rs:44-52). -/
structure Window where
  position : Position
  cursor : Position
  size : Size
  view : Option View
  is_open : Bool
  redraw : Bool
deriving DecidableEq

/-- `Window::default()`: all-zero fields, closed, no redraw. -/
def Window.defaultWindow : Window :=
  ⟨⟨0, 0⟩, ⟨0, 0⟩, ⟨0, 0⟩, none, false, false⟩

/-- `Window::keep_cursor_within_bounds` (editor.rs:99-102):
`size - 1` is `u16::saturating_sub`. -/
def Window.keep_cursor_within_bounds (w : Window) : Window :=
  { w with cursor :=
      ⟨min w.cursor.x (w.size.width - 1), min w.cursor.y (w.size.height - 1)⟩ }

/-- `Window::contains_x` (editor.rs:103-105). -/
def Window.contains_x (w : Window) (x : Nat) : Bool :=
  decide (w.position.x ≤ x ∧ x < w.position.x + w.size.width)

/-- `Window::contains_y` (editor.rs:106-108). -/
def Window.contains_y (w : Window) (y : Nat) : Bool :=
  decide (w.position.y ≤ y ∧ y < w.position.y + w.size.height)

/-- `Window::contains` (editor.rs:109-111). -/
def Window.contains (w : Window) (position : Position) : Bool :=
  w.contains_x position.x && w.contains_y position.y

/-- `editor::Tab` (editor.rs:54-57). -/
structure Tab where
  open_windows : List Nat
  window_focus : Nat
deriving DecidableEq

/-- `editor::Editor` (editor.rs:59-68), restricted to the fields the
modelled operations touch. -/
structure Editor where
  windows : List Window
  tabs : List Tab
  status : Option String
  size : Size
  current_tab : Nat
deriving DecidableEq

/-- `Editor::new_tab` (editor.rs:115-126): pushes one open full-width
window of height `size.height - 1` (u16 subtraction) and returns the tab
holding it. -/
def Editor.new_tab (e : Editor) : Tab × Editor :=
  let w : Window :=
    { Window.defaultWindow with
        size := ⟨e.size.width, e.size.height - 1⟩, is_open := true, redraw := true }
  let default_window_id := e.windows.length
  (⟨[default_window_id], default_window_id⟩, { e with windows := e.windows ++ [w] })

/-- `Editor::new` (editor.rs:128-142). -/
def Editor.new (size : Size) : Editor :=
  let e : Editor := ⟨[], [], none, size, 0⟩
  let (tab, e1) := e.new_tab
  { e1 with tabs := e1.tabs ++ [tab] }

/-- `Editor::emit_message` (editor.rs:144-146). -/
def Editor.emit_message (e : Editor) (message : String) : Editor :=
  { e with status := some message }

/-- `Editor::force_redraw` (editor.rs:148-152). -/
def Editor.force_redraw (e : Editor) : Editor :=
  { e with windows := e.windows.map (fun w => { w with redraw := true }) }

/-- `Editor::window_focus` (editor.rs:154-156); `none` models the panic on
an out-of-range current tab index. -/
def Editor.window_focus? (e : Editor) : Option Nat :=
  (e.tabs.get? e.current_tab).map Tab.window_focus

/-- `Editor::new_window` (editor.rs:162-166): the first closed arena slot
if one exists, else push a default window.  Returns the chosen id and the
(possibly grown) editor. -/
def Editor.new_window (e : Editor) : Nat × Editor :=
  match (List.range e.windows.length).find?
      (fun id => !(((e.windows.get? id).map Window.is_open).getD true)) with
  | some id => (id, e)
  | none => (e.windows.length, { e with windows := e.windows ++ [Window.defaultWindow] })

/-- `Editor::set_window_focus` (editor.rs:168-173). -/
def Editor.set_window_focus (e : Editor) (new_focus : Nat) : Option Editor := do
  let tab ← e.tabs.get? e.current_tab
  let w1 ← e.windows.get? tab.window_focus
  let windows1 := e.windows.set tab.window_focus { w1 with redraw := true }
  let w2 ← windows1.get? new_focus
  let windows2 := windows1.set new_focus { w2 with redraw := true }
  return { e with windows := windows2,
                  tabs := e.tabs.set e.current_tab { tab with window_focus := new_focus } }

/-- `Editor::set_current_tab` (editor.rs:175-179); `none` models the
`assert!(tab < self.tabs.len())` failure. -/
def Editor.set_current_tab (e : Editor) (tab : Nat) : Option Editor :=
  if tab < e.tabs.length then
    some ({ e with current_tab := tab }.force_redraw)
  else
    none

/-- `Editor::tab_open` (editor.rs:192-196). -/
def Editor.tab_open (e : Editor) : Option Editor :=
  let (tab, e1) := e.new_tab
  let e2 := { e1 with tabs := listInsertAt e1.tabs (e1.current_tab + 1) tab }
  e2.set_current_tab (e2.current_tab + 1)

/-- One step of the window-closing loop in `tab_close` (editor.rs:203-205).
Rust would panic on an out-of-range id; ids stored in a reachable tab are
always in range, where `List.set` agrees with `Vec` indexing. -/
def closeWindow (ws : List Window) (id : Nat) : List Window :=
  match ws.get? id with
  | some w => ws.set id { w with is_open := false }
  | none => ws

/-- `Editor::tab_close` (editor.rs:198-210). -/
def Editor.tab_close (e : Editor) : Option Editor :=
  if e.tabs.length = 1 then
    some (e.emit_message "Cannot close last tab")
  else do
    let tab ← e.tabs.get? e.current_tab
    let windows := tab.open_windows.foldl closeWindow e.windows
    let e1 := { e with windows := windows, tabs := e.tabs.eraseIdx e.current_tab }
    if e1.current_tab = e1.tabs.length then
      e1.set_current_tab (e1.current_tab - 1)
    else
      return e1

/-- `Editor::tab_next` (editor.rs:212-214). -/
def Editor.tab_next (e : Editor) : Option Editor :=
  e.set_current_tab (rotate_forward 0 e.tabs.length e.current_tab)

/-- `Editor::tab_previous` (editor.rs:216-218). -/
def Editor.tab_previous (e : Editor) : Option Editor :=
  e.set_current_tab (rotate_backward 0 e.tabs.length e.current_tab)

/-- `Editor::move_cursor` (editor.rs:220-224). -/
def Editor.move_cursor (e : Editor) (direction : Direction) : Option Editor := do
  let tab ← e.tabs.get? e.current_tab
  let w ← e.windows.get? tab.window_focus
  let w1 := ({ w with cursor := w.cursor.move_toward direction }).keep_cursor_within_bounds
  return { e with windows := e.windows.set tab.window_focus w1 }

/-- `Editor::rotate_focus_forward` (editor.rs:226-230). -/
def Editor.rotate_focus_forward (e : Editor) : Option Editor := do
  let index ← e.window_focus?
  e.set_window_focus (rotate_forward 0 e.windows.length index)

/-- `Editor::rotate_focus_backward` (editor.rs:232-236). -/
def Editor.rotate_focus_backward (e : Editor) : Option Editor := do
  let index ← e.window_focus?
  e.set_window_focus (rotate_backward 0 e.windows.length index)

/-- `self.windows[id].contains(position)` inside the beam filter
(editor.rs:245); out-of-range ids (a panic in Rust) cannot arise from a
reachable tab's open-window list. -/
def Editor.window_contains (e : Editor) (id : Nat) (position : Position) : Bool :=
  ((e.windows.get? id).map (fun w => w.contains position)).getD false

/-- `Editor::run_cursor_focus_beam` (editor.rs:238-248): `flat_map` the
eligible windows over the scanned positions and take the first hit. -/
def Editor.run_cursor_focus_beam (e : Editor) (beam : List Position) :
    Option (Option Nat) := do
  let tab ← e.tabs.get? e.current_tab
  return (beam.flatMap (fun position =>
    tab.open_windows.filter (fun id =>
      decide (id ≠ tab.window_focus) && e.window_contains id position))).head?

/-- Rust range `a..b` as a list. -/
def rangeFromTo (a b : Nat) : List Nat :=
  (List.range (b - a)).map (fun i => a + i)

/-- The canvas cells scanned by `Editor::send_cursor_focus_beam`
(editor.rs:250-272), in scan order, for each direction. -/
def Editor.beam_cells (e : Editor) (window : Window) (cursor : Position)
    (direction : Direction) : List Position :=
  match direction with
  | .up => ((List.range window.position.y).reverse).map (fun y => ⟨cursor.x, y⟩)
  | .down => (rangeFromTo window.position.y e.size.height).map (fun y => ⟨cursor.x, y⟩)
  | .left => ((List.range window.position.x).reverse).map (fun x => ⟨x, cursor.y⟩)
  | .right => (rangeFromTo (window.position.x + window.size.width) e.size.width).map
      (fun x => ⟨x, cursor.y⟩)

/-- `Editor::send_cursor_focus_beam` (editor.rs:250-272). -/
def Editor.send_cursor_focus_beam (e : Editor) (direction : Direction) :
    Option (Option Nat) := do
  let tab ← e.tabs.get? e.current_tab
  let window ← e.windows.get? tab.window_focus
  let cursor := window.position.offset window.cursor
  e.run_cursor_focus_beam (e.beam_cells window cursor direction)

/-- `Editor::move_focus` (editor.rs:274-276). -/
def Editor.move_focus (e : Editor) (direction : Direction) : Option Editor := do
  match ← e.send_cursor_focus_beam direction with
  | none => return e
  | some id => e.set_window_focus id

/-- `Editor::vertical_split_window` (editor.rs:278-292). -/
def Editor.vertical_split_window (e : Editor) : Option Editor := do
  let tab ← e.tabs.get? e.current_tab
  let left ← e.windows.get? tab.window_focus
  if left.size.width < 6 then
    return e.emit_message "The window is too small for a vertical split"
  else
    let remainder := left.size.width % 2
    let left1 := ({ left with
      size := { left.size with width := left.size.width / 2 } }).keep_cursor_within_bounds
    let right := { left1 with
      size := { left1.size with width := left1.size.width + remainder },
      position := { left1.position with x := left1.position.x + left1.size.width } }
    let left2 := { left1 with redraw := true }
    let right2 := { right with redraw := true }
    let new_id := e.windows.length
    return { e with
      windows := (e.windows.set tab.window_focus left2) ++ [right2],
      tabs := e.tabs.set e.current_tab
        { tab with open_windows := tab.open_windows ++ [new_id] } }

/-- `Editor::horizontal_split_window` (editor.rs:294-308). -/
def Editor.horizontal_split_window (e : Editor) : Option Editor := do
  let tab ← e.tabs.get? e.current_tab
  let above ← e.windows.get? tab.window_focus
  if above.size.height < 6 then
    return e.emit_message "The window is too small for a horizontal split"
  else
    let remainder := above.size.height % 2
    let above1 := ({ above with
      size := { above.size with height := above.size.height / 2 } }).keep_cursor_within_bounds
    let below := { above1 with
      size := { above1.size with height := above1.size.height + remainder },
      position := { above1.position with y := above1.position.y + above1.size.height } }
    let above2 := { above1 with redraw := true }
    let below2 := { below with redraw := true }
    let new_id := e.windows.length
    return { e with
      windows := (e.windows.set tab.window_focus above2) ++ [below2],
      tabs := e.tabs.set e.current_tab
        { tab with open_windows := tab.open_windows ++ [new_id] } }

/-- The focused window after a vertical split (editor.rs:284-290): width
halved, cursor re-clamped, redraw set. -/
def vsplit_left (win : Window) : Window :=
  { ({ win with
        size := { win.size with width := win.size.width / 2 } }).keep_cursor_within_bounds
    with redraw := true }

/-- The new right-hand window of a vertical split (editor.rs:287-290). -/
def vsplit_right (win : Window) : Window :=
  let left1 := ({ win with
    size := { win.size with width := win.size.width / 2 } }).keep_cursor_within_bounds
  { left1 with
    size := { left1.size with width := left1.size.width + win.size.width % 2 },
    position := { left1.position with x := left1.position.x + left1.size.width },
    redraw := true }

/-- The focused window after a horizontal split (editor.rs:300-306). -/
def hsplit_above (win : Window) : Window :=
  { ({ win with
        size := { win.size with height := win.size.height / 2 } }).keep_cursor_within_bounds
    with redraw := true }

/-- The new lower window of a horizontal split (editor.rs:303-306). -/
def hsplit_below (win : Window) : Window :=
  let above1 := ({ win with
    size := { win.size with height := win.size.height / 2 } }).keep_cursor_within_bounds
  { above1 with
    size := { above1.size with height := above1.size.height + win.size.height % 2 },
    position := { above1.position with y := above1.position.y + above1.size.height },
    redraw := true }

/-- `n`-fold composition of a fallible state transition. -/
def iterateOpt {α : Type} (f : α → Option α) : Nat → α → Option α
  | 0, a => some a
  | n + 1, a => (f a).bind (iterateOpt f n)

/-- A 2-by-2 tiling of a 20-by-10 canvas: four open 10-by-5 windows in one
tab, focus on the top-left window. -/
def grid_window (x y : Nat) : Window :=
  { position := ⟨x, y⟩, cursor := ⟨0, 0⟩, size := ⟨10, 5⟩, view := none,
    is_open := true, redraw := false }

def grid_editor : Editor :=
  { windows := [grid_window 0 0, grid_window 10 0, grid_window 0 5, grid_window 10 5],
    tabs := [⟨[0, 1, 2, 3], 0⟩], status := none, size := ⟨20, 10⟩, current_tab := 0 }

/-- `grid_editor` after one `move_focus` to the right. -/
def grid_after : Editor := (grid_editor.move_focus .right).getD grid_editor

/-- The editor states reachable from `Editor::new` through the modelled
mutating operations (each `some` result is a run that did not panic). -/
inductive ReachE : Editor → Prop where
  | new (size : Size) : ReachE (Editor.new size)
  | emit (e : Editor) (m : String) (h : ReachE e) : ReachE (e.emit_message m)
  | forceRedraw (e : Editor) (h : ReachE e) : ReachE e.force_redraw
  | newWindow (e : Editor) (h : ReachE e) : ReachE (e.new_window).2
  | tabOpen (e e' : Editor) (h : ReachE e) (hs : e.tab_open = some e') : ReachE e'
  | tabClose (e e' : Editor) (h : ReachE e) (hs : e.tab_close = some e') : ReachE e'
  | tabNext (e e' : Editor) (h : ReachE e) (hs : e.tab_next = some e') : ReachE e'
  | tabPrev (e e' : Editor) (h : ReachE e) (hs : e.tab_previous = some e') : ReachE e'
  | moveCursor (e e' : Editor) (d : Direction) (h : ReachE e)
      (hs : e.move_cursor d = some e') : ReachE e'
  | rotateFwd (e e' : Editor) (h : ReachE e)
      (hs : e.rotate_focus_forward = some e') : ReachE e'
  | rotateBwd (e e' : Editor) (h : ReachE e)
      (hs : e.rotate_focus_backward = some e') : ReachE e'
  | moveFocus (e e' : Editor) (d : Direction) (h : ReachE e)
      (hs : e.move_focus d = some e') : ReachE e'
  | vsplit (e e' : Editor) (h : ReachE e)
      (hs : e.vertical_split_window = some e') : ReachE e'
  | hsplit (e e' : Editor) (h : ReachE e)
      (hs : e.horizontal_split_window = some e') : ReachE e'

/-- Concrete editor for witnesses: a fresh editor on a 21 by 11 canvas. -/
def c5_editor : Editor := Editor.new ⟨21, 11⟩

def c5_tab : Tab := ⟨[0], 0⟩

def c5_win : Window := ⟨⟨0, 0⟩, ⟨0, 0⟩, ⟨21, 10⟩, none, true, true⟩

/-- The piece tables the program can actually build: `From<String>` or
`Default`, then any sequence of `insert`/`remove` calls whose internal
lookups succeed (for a well-formed table these are exactly the calls with
offsets in `[0, length]`).  Following the amended claim, the initial string
and all inserted strings are non-empty. -/
inductive Reach : PieceTable → Prop where
  | fromStr (s : List Char) (hs : s ≠ []) : Reach (PieceTable.fromString s)
  | defaultTable : Reach PieceTable.defaultTable
  | insertStep (t t' : PieceTable) (offset : Nat) (s : List Char) (hs : s ≠ [])
      (ht : Reach t) (h : t.insert offset s = some t') : Reach t'
  | removeStep (t t' : PieceTable) (offset width : Nat)
      (ht : Reach t) (h : t.remove offset width = some t') : Reach t'

lemma gather_eq_gatherL (t : PieceTable) : t.gather = gatherL t t.pieces := rfl

lemma gatherL_nil (t : PieceTable) : gatherL t [] = [] := rfl

lemma gatherL_cons (t : PieceTable) (p : Piece) (ps : List Piece) :
    gatherL t (p :: ps) = t.string_for p ++ gatherL t ps := by
  simp [gatherL]

lemma gatherL_append (t : PieceTable) (xs ys : List Piece) :
    gatherL t (xs ++ ys) = gatherL t xs ++ gatherL t ys := by
  simp [gatherL]

lemma piecesWidth_nil : piecesWidth [] = 0 := rfl

lemma piecesWidth_cons (p : Piece) (ps : List Piece) :
    piecesWidth (p :: ps) = p.width + piecesWidth ps := by
  simp [piecesWidth]

lemma piecesWidth_append (xs ys : List Piece) :
    piecesWidth (xs ++ ys) = piecesWidth xs + piecesWidth ys := by
  simp [piecesWidth]

lemma string_for_length (t : PieceTable) (p : Piece)
    (h : p.offset + p.width ≤ (t.buffer_for p.kind).length) :
    (t.string_for p).length = p.width := by
  simp only [PieceTable.string_for, List.length_take, List.length_drop]
  omega

lemma string_for_width_zero (t : PieceTable) (p : Piece) (h : p.width = 0) :
    t.string_for p = [] := by
  simp [PieceTable.string_for, h]

lemma gatherL_length (t : PieceTable) (ps : List Piece)
    (h : ∀ p ∈ ps, p.offset + p.width ≤ (t.buffer_for p.kind).length) :
    (gatherL t ps).length = piecesWidth ps := by
  induction ps with
  | nil => rfl
  | cons p ps ih =>
    rw [gatherL_cons, piecesWidth_cons, List.length_append,
      string_for_length t p (h p (by simp)), ih (fun q hq => h q (by simp [hq]))]

lemma gatherL_filter (t : PieceTable) (ps : List Piece) :
    gatherL t (ps.filter (fun p => p.width != 0)) = gatherL t ps := by
  induction ps with
  | nil => rfl
  | cons p ps ih =>
    rw [List.filter_cons]
    by_cases h : p.width = 0
    · have hb : (p.width != 0) = false := by simp [h]
      rw [hb, if_neg (by simp), ih, gatherL_cons, string_for_width_zero t p h,
        List.nil_append]
    · have hb : (p.width != 0) = true := by simp [h]
      rw [hb, if_pos rfl, gatherL_cons, gatherL_cons, ih]

/-- What a successful `find_piece` scan tells us: the found piece exists, the
offset splits as the widths before it plus the relative offset, and the
relative offset stays within the found piece. -/
lemma findPieceAux_spec (pieces : List Piece) :
    ∀ (offset idx cur : Nat), cur ≤ offset →
    ∀ pos, findPieceAux pieces offset idx cur = some pos →
    ∃ i piece, pieces.get? i = some piece ∧ pos.piece_index = idx + i ∧
      cur + piecesWidth (pieces.take i) ≤ offset ∧
      offset ≤ cur + piecesWidth (pieces.take i) + piece.width ∧
      pos.relative_offset + (cur + piecesWidth (pieces.take i)) = offset := by
  induction pieces with
  | nil => intro offset idx cur _ pos h; simp [findPieceAux] at h
  | cons p rest ih =>
    intro offset idx cur hcur pos h
    simp only [findPieceAux] at h
    by_cases hle : offset ≤ cur + p.width
    · rw [if_pos hle] at h
      injection h with h
      subst h
      refine ⟨0, p, rfl, by simp, ?_, ?_, ?_⟩ <;>
        simp only [List.take_zero, piecesWidth_nil, Nat.add_zero] <;> omega
    · rw [if_neg hle] at h
      obtain ⟨i, piece, hget, hidx, h1, h2, h3⟩ :=
        ih offset (idx + 1) (cur + p.width) (by omega) pos h
      refine ⟨i + 1, piece, by simpa using hget, by omega, ?_, ?_, ?_⟩ <;>
        simp only [List.take_succ_cons, piecesWidth_cons] <;> omega

/-- `find_piece` succeeds whenever the piece list is non-empty and the offset
does not exceed the total width. -/
lemma findPieceAux_isSome (pieces : List Piece) :
    ∀ (offset idx cur : Nat), pieces ≠ [] →
    offset ≤ cur + piecesWidth pieces →
    (findPieceAux pieces offset idx cur).isSome := by
  induction pieces with
  | nil => intro _ _ _ h; exact absurd rfl h
  | cons p rest ih =>
    intro offset idx cur _ htot
    simp only [findPieceAux]
    by_cases hle : offset ≤ cur + p.width
    · rw [if_pos hle]; rfl
    · rw [if_neg hle]
      rcases rest with _ | ⟨q, rest'⟩
      · rw [piecesWidth_cons, piecesWidth_nil] at htot; omega
      · exact ih offset (idx + 1) (cur + p.width) (by simp)
          (by rw [piecesWidth_cons] at htot; omega)

lemma find_piece_spec (ps : List Piece) (offset : Nat) (pos : PiecePosition)
    (h : PieceTable.find_piece ps offset = some pos) :
    ∃ piece, ps.get? pos.piece_index = some piece ∧
      piecesWidth (ps.take pos.piece_index) ≤ offset ∧
      offset ≤ piecesWidth (ps.take pos.piece_index) + piece.width ∧
      pos.relative_offset + piecesWidth (ps.take pos.piece_index) = offset := by
  obtain ⟨i, piece, hget, hidx, h1, h2, h3⟩ :=
    findPieceAux_spec ps offset 0 0 (Nat.zero_le _) pos h
  rw [Nat.zero_add] at hidx
  subst hidx
  exact ⟨piece, hget, by omega, by omega, by omega⟩

lemma find_piece_isSome (ps : List Piece) (offset : Nat)
    (hne : ps ≠ []) (h : offset ≤ piecesWidth ps) :
    (PieceTable.find_piece ps offset).isSome :=
  findPieceAux_isSome ps offset 0 0 hne (by omega)

lemma pieces_decomp {α : Type} (ps : List α) (i : Nat) (p : α)
    (h : ps.get? i = some p) : ps = ps.take i ++ p :: ps.drop (i + 1) := by
  have hlt : i < ps.length := List.get?_eq_some.mp h |>.1
  conv_lhs => rw [← List.take_append_drop i ps]
  congr 1
  rw [List.drop_eq_getElem_cons hlt]
  congr 1
  rw [List.get?_eq_getElem? ] at h
  exact (List.getElem?_eq_some.mp h).2

lemma gather_decomp (t : PieceTable) (ps : List Piece) (i : Nat) (p : Piece)
    (hget : ps.get? i = some p) :
    gatherL t ps = gatherL t (ps.take i) ++ t.string_for p ++ gatherL t (ps.drop (i + 1)) := by
  conv_lhs => rw [pieces_decomp ps i p hget]
  rw [gatherL_append, gatherL_cons, List.append_assoc]

lemma gather_take_decomp (t : PieceTable) (ps : List Piece) (i rel : Nat) (p : Piece)
    (hwf : ∀ q ∈ ps, q.offset + q.width ≤ (t.buffer_for q.kind).length)
    (hget : ps.get? i = some p) (hrel : rel ≤ p.width) :
    (gatherL t ps).take (piecesWidth (ps.take i) + rel) =
      gatherL t (ps.take i) ++ (t.string_for p).take rel := by
  have hlenA : (gatherL t (ps.take i)).length = piecesWidth (ps.take i) :=
    gatherL_length t _ (fun q hq => hwf q (List.mem_of_mem_take hq))
  have hlenp : (t.string_for p).length = p.width :=
    string_for_length t p (hwf p (List.get?_mem hget))
  rw [gather_decomp t ps i p hget, List.append_assoc, List.take_append_eq_append_take,
    List.take_of_length_le (by omega), List.take_append_eq_append_take]
  have h1 : piecesWidth (ps.take i) + rel - (gatherL t (ps.take i)).length = rel := by omega
  rw [h1]
  have h2 : rel - (t.string_for p).length = 0 := by omega
  rw [h2, List.take_zero, List.append_nil]

lemma gather_drop_decomp (t : PieceTable) (ps : List Piece) (i rel : Nat) (p : Piece)
    (hwf : ∀ q ∈ ps, q.offset + q.width ≤ (t.buffer_for q.kind).length)
    (hget : ps.get? i = some p) (hrel : rel ≤ p.width) :
    (gatherL t ps).drop (piecesWidth (ps.take i) + rel) =
      (t.string_for p).drop rel ++ gatherL t (ps.drop (i + 1)) := by
  have hlenA : (gatherL t (ps.take i)).length = piecesWidth (ps.take i) :=
    gatherL_length t _ (fun q hq => hwf q (List.mem_of_mem_take hq))
  have hlenp : (t.string_for p).length = p.width :=
    string_for_length t p (hwf p (List.get?_mem hget))
  rw [gather_decomp t ps i p hget, List.append_assoc, List.drop_append_eq_append_drop,
    List.drop_eq_nil_of_le (by omega), List.drop_append_eq_append_drop]
  have h1 : piecesWidth (ps.take i) + rel - (gatherL t (ps.take i)).length = rel := by omega
  rw [h1]
  have h2 : rel - (t.string_for p).length = 0 := by omega
  rw [h2, List.drop_zero, List.nil_append]

/-- Growing the append buffer does not change how an in-bounds piece reads. -/
lemma string_for_extend (t : PieceTable) (s : List Char) (p : Piece)
    (h : p.offset + p.width ≤ (t.buffer_for p.kind).length) :
    PieceTable.string_for { t with append := t.append ++ s } p = t.string_for p := by
  rcases p with ⟨o, w, k⟩
  cases k with
  | original => rfl
  | append =>
    simp only [PieceTable.string_for, PieceTable.buffer_for] at h ⊢
    rw [List.drop_append_eq_append_drop, List.take_append_eq_append_take]
    have h1 : o - t.append.length = 0 := by omega
    have h2 : w - (t.append.drop o).length = 0 := by
      rw [List.length_drop]; omega
    rw [h1, h2, List.drop_zero, List.take_zero, List.append_nil]

lemma gatherL_extend (t : PieceTable) (s : List Char) (ps : List Piece)
    (h : ∀ p ∈ ps, p.offset + p.width ≤ (t.buffer_for p.kind).length) :
    gatherL { t with append := t.append ++ s } ps = gatherL t ps := by
  unfold gatherL
  congr 1
  exact List.map_congr_left (fun p hp => string_for_extend t s p (h p hp))

/-- The freshly appended piece reads back exactly the inserted string. -/
lemma string_for_new (t : PieceTable) (s : List Char) :
    PieceTable.string_for { t with append := t.append ++ s }
      ⟨t.append.length, s.length, PieceKind.append⟩ = s := by
  simp only [PieceTable.string_for, PieceTable.buffer_for, List.drop_left, List.take_length]

lemma string_for_take (t : PieceTable) (p : Piece) (rel : Nat) (hrel : rel ≤ p.width) :
    t.string_for ⟨p.offset, rel, p.kind⟩ = (t.string_for p).take rel := by
  simp only [PieceTable.string_for, List.take_take]
  rw [min_eq_left hrel]

lemma string_for_drop (t : PieceTable) (p : Piece) (rel : Nat) :
    t.string_for ⟨p.offset + rel, p.width - rel, p.kind⟩ = (t.string_for p).drop rel := by
  simp only [PieceTable.string_for, List.drop_take, List.drop_drop]

lemma gather_length (t : PieceTable) (hwf : t.Wf) :
    t.gather.length = piecesWidth t.pieces :=
  gatherL_length t t.pieces hwf

/-- Computation of `insert` once the internal lookups are known to succeed. -/
lemma insert_eq_of_find (t : PieceTable) (offset : Nat) (s : List Char)
    (pos : PiecePosition) (p : Piece)
    (hfind : PieceTable.find_piece t.pieces offset = some pos)
    (hget : t.pieces.get? pos.piece_index = some p) :
    t.insert offset s = some (
      if pos.relative_offset = 0 then
        { t with append := t.append ++ s,
                 pieces := listInsertAt t.pieces pos.piece_index
                   ⟨t.append.length, s.length, PieceKind.append⟩ }
      else if pos.relative_offset = p.width then
        { t with append := t.append ++ s,
                 pieces := listInsertAt t.pieces (pos.piece_index + 1)
                   ⟨t.append.length, s.length, PieceKind.append⟩ }
      else
        { t with append := t.append ++ s,
                 pieces := listSplice t.pieces pos.piece_index pos.piece_index
                   ([⟨p.offset, pos.relative_offset, p.kind⟩,
                     ⟨t.append.length, s.length, PieceKind.append⟩,
                     ⟨p.offset + pos.relative_offset, p.width - pos.relative_offset, p.kind⟩].filter
                       (fun q => q.width != 0)) }) := by
  simp only [PieceTable.insert, hfind, hget, Option.pure_def, Option.bind_eq_bind,
    Option.some_bind, PieceTable.add_piece, PieceTable.splice, Piece.split]
  split_ifs <;> rfl

/-- Computation of `remove` once the internal lookups are known to succeed. -/
lemma remove_eq_of_find (t : PieceTable) (offset width : Nat) (hw : width ≠ 0)
    (start stop : PiecePosition) (ps pe : Piece)
    (hf1 : PieceTable.find_piece t.pieces offset = some start)
    (hf2 : PieceTable.find_piece t.pieces (offset + width) = some stop)
    (hg1 : t.pieces.get? start.piece_index = some ps)
    (hg2 : t.pieces.get? stop.piece_index = some pe) :
    t.remove offset width = some (
      { t with pieces := listSplice t.pieces start.piece_index stop.piece_index
                   ([⟨ps.offset, start.relative_offset, ps.kind⟩,
                     ⟨pe.offset + stop.relative_offset,
                      pe.width - stop.relative_offset, pe.kind⟩].filter
                       (fun q => q.width != 0)) }) := by
  rw [PieceTable.remove, if_neg hw]
  simp only [hf1, hf2, hg1, hg2, Option.pure_def, Option.bind_eq_bind, Option.some_bind,
    PieceTable.splice, Piece.split]

lemma gatherL_split (t : PieceTable) (ps : List Piece) (i : Nat) :
    gatherL t ps = gatherL t (ps.take i) ++ gatherL t (ps.drop i) := by
  rw [← gatherL_append, List.take_append_drop]

/-- C1, amended: holds for every well-formed table with at least one piece. -/
theorem c1_insert_then_gather (t : PieceTable) (offset : Nat) (s : List Char)
    (hwf : t.Wf) (hne : t.pieces ≠ []) (hoff : offset ≤ t.gather.length) :
    ∃ t', t.insert offset s = some t' ∧
      t'.gather = t.gather.take offset ++ s ++ t.gather.drop offset := by
  have hlen : t.gather.length = piecesWidth t.pieces := gather_length t hwf
  obtain ⟨pos, hfind⟩ :=
    Option.isSome_iff_exists.mp (find_piece_isSome t.pieces offset hne (by omega))
  obtain ⟨p, hget, hW1, hW2, hrel⟩ := find_piece_spec t.pieces offset pos hfind
  have hrelw : pos.relative_offset ≤ p.width := by omega
  have hwfT : ∀ n, ∀ q ∈ t.pieces.take n,
      q.offset + q.width ≤ (t.buffer_for q.kind).length :=
    fun _ q hq => hwf q (List.mem_of_mem_take hq)
  have hwfD : ∀ n, ∀ q ∈ t.pieces.drop n,
      q.offset + q.width ≤ (t.buffer_for q.kind).length :=
    fun _ q hq => hwf q (List.mem_of_mem_drop hq)
  rw [insert_eq_of_find t offset s pos p hfind hget]
  by_cases h0 : pos.relative_offset = 0
  · rw [if_pos h0]
    refine ⟨_, rfl, ?_⟩
    have hW0 : piecesWidth (t.pieces.take pos.piece_index) = offset := by omega
    have hA : (gatherL t (t.pieces.take pos.piece_index)).length = offset := by
      rw [gatherL_length t _ (hwfT pos.piece_index), hW0]
    show gatherL { t with append := t.append ++ s }
        (listInsertAt t.pieces pos.piece_index ⟨t.append.length, s.length, PieceKind.append⟩)
      = t.gather.take offset ++ s ++ t.gather.drop offset
    rw [listInsertAt, gatherL_append, gatherL_cons,
      gatherL_extend t s _ (hwfT pos.piece_index),
      gatherL_extend t s _ (hwfD pos.piece_index), string_for_new,
      gather_eq_gatherL, gatherL_split t t.pieces pos.piece_index,
      List.take_left' hA, List.drop_left' hA, List.append_assoc]
  · by_cases h1 : pos.relative_offset = p.width
    · rw [if_neg h0, if_pos h1]
      refine ⟨_, rfl, ?_⟩
      have htake : t.pieces.take (pos.piece_index + 1) =
          t.pieces.take pos.piece_index ++ [p] := by
        rw [List.take_succ, ← List.get?_eq_getElem?, hget]
        rfl
      have hW0 : piecesWidth (t.pieces.take (pos.piece_index + 1)) = offset := by
        rw [htake, piecesWidth_append, piecesWidth_cons, piecesWidth_nil]
        omega
      have hA : (gatherL t (t.pieces.take (pos.piece_index + 1))).length = offset := by
        rw [gatherL_length t _ (hwfT (pos.piece_index + 1)), hW0]
      show gatherL { t with append := t.append ++ s }
          (listInsertAt t.pieces (pos.piece_index + 1)
            ⟨t.append.length, s.length, PieceKind.append⟩)
        = t.gather.take offset ++ s ++ t.gather.drop offset
      rw [listInsertAt, gatherL_append, gatherL_cons,
        gatherL_extend t s _ (hwfT (pos.piece_index + 1)),
        gatherL_extend t s _ (hwfD (pos.piece_index + 1)), string_for_new,
        gather_eq_gatherL, gatherL_split t t.pieces (pos.piece_index + 1),
        List.take_left' hA, List.drop_left' hA, List.append_assoc]
    · rw [if_neg h0, if_neg h1]
      refine ⟨_, rfl, ?_⟩
      have hpin : p.offset + p.width ≤ (t.buffer_for p.kind).length :=
        hwf p (List.get?_mem hget)
      have hlmem : (⟨p.offset, pos.relative_offset, p.kind⟩ : Piece).offset +
          (⟨p.offset, pos.relative_offset, p.kind⟩ : Piece).width ≤
          (t.buffer_for (⟨p.offset, pos.relative_offset, p.kind⟩ : Piece).kind).length := by
        simp only
        omega
      have hrmem : (⟨p.offset + pos.relative_offset, p.width - pos.relative_offset,
          p.kind⟩ : Piece).offset +
          (⟨p.offset + pos.relative_offset, p.width - pos.relative_offset,
            p.kind⟩ : Piece).width ≤
          (t.buffer_for (⟨p.offset + pos.relative_offset, p.width - pos.relative_offset,
            p.kind⟩ : Piece).kind).length := by
        simp only
        omega
      show gatherL { t with append := t.append ++ s }
          (listSplice t.pieces pos.piece_index pos.piece_index
            ([⟨p.offset, pos.relative_offset, p.kind⟩,
              ⟨t.append.length, s.length, PieceKind.append⟩,
              ⟨p.offset + pos.relative_offset, p.width - pos.relative_offset, p.kind⟩].filter
                (fun q => q.width != 0)))
        = t.gather.take offset ++ s ++ t.gather.drop offset
      rw [listSplice, gatherL_append, gatherL_append, gatherL_filter, gatherL_cons,
        gatherL_cons, gatherL_cons, gatherL_nil,
        gatherL_extend t s _ (hwfT pos.piece_index),
        gatherL_extend t s _ (hwfD (pos.piece_index + 1)),
        string_for_extend t s _ hlmem, string_for_extend t s _ hrmem, string_for_new,
        string_for_take t p pos.relative_offset hrelw, string_for_drop t p pos.relative_offset]
      rw [gather_eq_gatherL]
      have htake := gather_take_decomp t t.pieces pos.piece_index pos.relative_offset p
        hwf hget hrelw
      have hdrop := gather_drop_decomp t t.pieces pos.piece_index pos.relative_offset p
        hwf hget hrelw
      rw [show piecesWidth (t.pieces.take pos.piece_index) + pos.relative_offset = offset
          by omega] at htake hdrop
      rw [htake, hdrop]
      simp [List.append_assoc]

/-- C1, counterexample: the table with no pieces has logical text `""`, so
`offset = 0` is in `[0, S.length]`, yet `insert(0, "x")` hits the
`find_piece(..).unwrap()` failure branch instead of producing any text. -/
theorem c1_counterexample :
    PieceTable.defaultTable.gather = [] ∧
    PieceTable.defaultTable.insert 0 ['x'] = none := ⟨rfl, rfl⟩

/-- C1 witness: concrete instance of the amended theorem. -/
theorem c1_witness :
    ∃ t', (PieceTable.fromString ['a', 'b']).insert 1 ['x'] = some t' ∧
      t'.gather = (PieceTable.fromString ['a', 'b']).gather.take 1 ++ ['x'] ++
        (PieceTable.fromString ['a', 'b']).gather.drop 1 :=
  c1_insert_then_gather (PieceTable.fromString ['a', 'b']) 1 ['x']
    (by decide) (by decide) (by decide)

/-- C2: `remove(offset, width)` then `gather()` drops exactly
`S[offset : offset+width]`, and `remove(offset, 0)` returns the table
unchanged, piece list included. -/
theorem c2_remove_then_gather (t : PieceTable) (offset width : Nat)
    (hwf : t.Wf) (hval : offset + width ≤ t.gather.length) :
    (∃ t', t.remove offset width = some t' ∧
      t'.gather = t.gather.take offset ++ t.gather.drop (offset + width)) ∧
    t.remove offset 0 = some t := by
  refine ⟨?_, rfl⟩
  by_cases hw0 : width = 0
  · subst hw0
    exact ⟨t, rfl, by rw [Nat.add_zero, List.take_append_drop]⟩
  · have hlen : t.gather.length = piecesWidth t.pieces := gather_length t hwf
    have hne : t.pieces ≠ [] := by
      intro h
      rw [h] at hlen
      simp only [piecesWidth_nil] at hlen
      omega
    obtain ⟨start, hf1⟩ :=
      Option.isSome_iff_exists.mp (find_piece_isSome t.pieces offset hne (by omega))
    obtain ⟨stop, hf2⟩ :=
      Option.isSome_iff_exists.mp
        (find_piece_isSome t.pieces (offset + width) hne (by omega))
    obtain ⟨ps, hg1, hsW1, hsW2, hsrel⟩ := find_piece_spec t.pieces offset start hf1
    obtain ⟨pe, hg2, heW1, heW2, herel⟩ :=
      find_piece_spec t.pieces (offset + width) stop hf2
    have hrels : start.relative_offset ≤ ps.width := by omega
    have hrele : stop.relative_offset ≤ pe.width := by omega
    rw [remove_eq_of_find t offset width hw0 start stop ps pe hf1 hf2 hg1 hg2]
    refine ⟨_, rfl, ?_⟩
    show gatherL t (listSplice t.pieces start.piece_index stop.piece_index
        ([⟨ps.offset, start.relative_offset, ps.kind⟩,
          ⟨pe.offset + stop.relative_offset,
           pe.width - stop.relative_offset, pe.kind⟩].filter (fun q => q.width != 0)))
      = t.gather.take offset ++ t.gather.drop (offset + width)
    rw [listSplice, gatherL_append, gatherL_append, gatherL_filter, gatherL_cons,
      gatherL_cons, gatherL_nil,
      string_for_take t ps start.relative_offset hrels,
      string_for_drop t pe stop.relative_offset]
    rw [gather_eq_gatherL]
    have htake := gather_take_decomp t t.pieces start.piece_index start.relative_offset ps
      hwf hg1 hrels
    have hdrop := gather_drop_decomp t t.pieces stop.piece_index stop.relative_offset pe
      hwf hg2 hrele
    rw [show piecesWidth (t.pieces.take start.piece_index) + start.relative_offset = offset
        by omega] at htake
    rw [show piecesWidth (t.pieces.take stop.piece_index) + stop.relative_offset =
        offset + width by omega] at hdrop
    rw [htake, hdrop]
    simp [List.append_assoc]

/-- C2 witness: concrete instance (`"abcd"`, remove the middle two characters). -/
theorem c2_witness :
    (∃ t', (PieceTable.fromString ['a', 'b', 'c', 'd']).remove 1 2 = some t' ∧
      t'.gather = (PieceTable.fromString ['a', 'b', 'c', 'd']).gather.take 1 ++
        (PieceTable.fromString ['a', 'b', 'c', 'd']).gather.drop 3) ∧
    (PieceTable.fromString ['a', 'b', 'c', 'd']).remove 1 0 =
      some (PieceTable.fromString ['a', 'b', 'c', 'd']) :=
  c2_remove_then_gather (PieceTable.fromString ['a', 'b', 'c', 'd']) 1 2
    (by decide) (by decide)

lemma mem_listInsertAt {α : Type} (xs : List α) (i : Nat) (a x : α)
    (h : x ∈ listInsertAt xs i a) : x = a ∨ x ∈ xs := by
  unfold listInsertAt at h
  rcases List.mem_append.mp h with h | h
  · exact Or.inr (List.mem_of_mem_take h)
  · rcases List.mem_cons.mp h with h | h
    · exact Or.inl h
    · exact Or.inr (List.mem_of_mem_drop h)

lemma mem_listSplice {α : Type} (xs : List α) (lo hi : Nat) (repl : List α) (x : α)
    (h : x ∈ listSplice xs lo hi repl) : x ∈ repl ∨ x ∈ xs := by
  unfold listSplice at h
  rcases List.mem_append.mp h with h | h
  · rcases List.mem_append.mp h with h | h
    · exact Or.inr (List.mem_of_mem_take h)
    · exact Or.inl h
  · exact Or.inr (List.mem_of_mem_drop h)

lemma buffer_for_pieces_irrel (t : PieceTable) (qs : List Piece) (k : PieceKind) :
    PieceTable.buffer_for { t with pieces := qs } k = t.buffer_for k := by
  cases k <;> rfl

lemma in_bounds_extend (t : PieceTable) (s : List Char) (q : Piece)
    (h : q.offset + q.width ≤ (t.buffer_for q.kind).length) :
    q.offset + q.width ≤
      (PieceTable.buffer_for { t with append := t.append ++ s } q.kind).length := by
  cases hk : q.kind <;> rw [hk] at h <;>
    simp only [PieceTable.buffer_for, List.length_append] at h ⊢ <;> omega

/-- A successful `insert` preserves well-formedness. -/
lemma insert_wf (t t' : PieceTable) (offset : Nat) (s : List Char)
    (hwf : t.Wf) (h : t.insert offset s = some t') : t'.Wf := by
  rcases hfind : PieceTable.find_piece t.pieces offset with _ | pos
  · simp [PieceTable.insert, hfind] at h
  rcases hget : t.pieces.get? pos.piece_index with _ | p
  · rw [List.get?_eq_getElem? ] at hget
    simp [PieceTable.insert, hfind, hget] at h
  obtain ⟨p', hget', hW1, hW2, hrel⟩ := find_piece_spec t.pieces offset pos hfind
  rw [hget] at hget'
  injection hget' with e
  subst e
  have hrelw : pos.relative_offset ≤ p.width := by omega
  have hpin : p.offset + p.width ≤ (t.buffer_for p.kind).length :=
    hwf p (List.get?_mem hget)
  rw [insert_eq_of_find t offset s pos p hfind hget] at h
  injection h with h
  subst h
  have hnew : (⟨t.append.length, s.length, PieceKind.append⟩ : Piece).offset +
      (⟨t.append.length, s.length, PieceKind.append⟩ : Piece).width ≤
      (PieceTable.buffer_for { t with append := t.append ++ s } PieceKind.append).length := by
    simp [PieceTable.buffer_for]
  split_ifs <;> intro q hq
  · rcases mem_listInsertAt _ _ _ _ hq with rfl | hq
    · exact hnew
    · exact in_bounds_extend t s q (hwf q hq)
  · rcases mem_listInsertAt _ _ _ _ hq with rfl | hq
    · exact hnew
    · exact in_bounds_extend t s q (hwf q hq)
  · rcases mem_listSplice _ _ _ _ _ hq with hq | hq
    · have hq' := (List.mem_filter.mp hq).1
      simp only [List.mem_cons, List.not_mem_nil, or_false] at hq'
      have hl : (⟨p.offset, pos.relative_offset, p.kind⟩ : Piece).offset +
          (⟨p.offset, pos.relative_offset, p.kind⟩ : Piece).width ≤
          (t.buffer_for p.kind).length := by
        simp only
        omega
      have hr : (⟨p.offset + pos.relative_offset, p.width - pos.relative_offset,
          p.kind⟩ : Piece).offset +
          (⟨p.offset + pos.relative_offset, p.width - pos.relative_offset,
            p.kind⟩ : Piece).width ≤ (t.buffer_for p.kind).length := by
        simp only
        omega
      rcases hq' with rfl | rfl | rfl
      · exact in_bounds_extend t s _ hl
      · exact hnew
      · exact in_bounds_extend t s _ hr
    · exact in_bounds_extend t s q (hwf q hq)

/-- A successful `insert` of a non-empty string keeps all piece widths
non-zero. -/
lemma insert_good (t t' : PieceTable) (offset : Nat) (s : List Char)
    (hgood : ∀ p ∈ t.pieces, p.width ≠ 0) (hs : s ≠ [])
    (h : t.insert offset s = some t') : ∀ p ∈ t'.pieces, p.width ≠ 0 := by
  rcases hfind : PieceTable.find_piece t.pieces offset with _ | pos
  · simp [PieceTable.insert, hfind] at h
  rcases hget : t.pieces.get? pos.piece_index with _ | p
  · rw [List.get?_eq_getElem? ] at hget
    simp [PieceTable.insert, hfind, hget] at h
  rw [insert_eq_of_find t offset s pos p hfind hget] at h
  injection h with h
  subst h
  have hnew : (⟨t.append.length, s.length, PieceKind.append⟩ : Piece).width ≠ 0 := by
    simpa using List.length_pos.mpr hs |>.ne'
  split_ifs <;> intro q hq
  · rcases mem_listInsertAt _ _ _ _ hq with rfl | hq
    · exact hnew
    · exact hgood q hq
  · rcases mem_listInsertAt _ _ _ _ hq with rfl | hq
    · exact hnew
    · exact hgood q hq
  · rcases mem_listSplice _ _ _ _ _ hq with hq | hq
    · simpa using (List.mem_filter.mp hq).2
    · exact hgood q hq

/-- A successful `remove` preserves well-formedness. -/
lemma remove_wf (t t' : PieceTable) (offset width : Nat)
    (hwf : t.Wf) (h : t.remove offset width = some t') : t'.Wf := by
  by_cases hw0 : width = 0
  · subst hw0
    rw [show t.remove offset 0 = some t from rfl] at h
    injection h with h
    subst h
    exact hwf
  rcases hf1 : PieceTable.find_piece t.pieces offset with _ | start
  · rw [PieceTable.remove, if_neg hw0] at h
    simp [hf1] at h
  rcases hf2 : PieceTable.find_piece t.pieces (offset + width) with _ | stop
  · rw [PieceTable.remove, if_neg hw0] at h
    simp [hf1, hf2] at h
  rcases hg1 : t.pieces.get? start.piece_index with _ | ps
  · rw [PieceTable.remove, if_neg hw0] at h
    rw [List.get?_eq_getElem? ] at hg1
    simp [hf1, hf2, hg1] at h
  rcases hg2 : t.pieces.get? stop.piece_index with _ | pe
  · rw [PieceTable.remove, if_neg hw0] at h
    rw [List.get?_eq_getElem? ] at hg2
    simp [hf1, hf2, hg1, hg2] at h
  obtain ⟨ps', hg1', _, hsW2, hsrel⟩ := find_piece_spec t.pieces offset start hf1
  rw [hg1] at hg1'
  injection hg1' with e
  subst e
  obtain ⟨pe', hg2', _, heW2, herel⟩ := find_piece_spec t.pieces (offset + width) stop hf2
  rw [hg2] at hg2'
  injection hg2' with e
  subst e
  have hpsin : ps.offset + ps.width ≤ (t.buffer_for ps.kind).length :=
    hwf ps (List.get?_mem hg1)
  have hpein : pe.offset + pe.width ≤ (t.buffer_for pe.kind).length :=
    hwf pe (List.get?_mem hg2)
  rw [remove_eq_of_find t offset width hw0 start stop ps pe hf1 hf2 hg1 hg2] at h
  injection h with h
  subst h
  intro q hq
  rcases mem_listSplice _ _ _ _ _ hq with hq | hq
  · have hq' := (List.mem_filter.mp hq).1
    simp only [List.mem_cons, List.not_mem_nil, or_false] at hq'
    rcases hq' with rfl | rfl
    · simp only [buffer_for_pieces_irrel]
      omega
    · simp only [buffer_for_pieces_irrel]
      omega
  · exact hwf q hq

/-- A successful `remove` keeps all piece widths non-zero. -/
lemma remove_good (t t' : PieceTable) (offset width : Nat)
    (hgood : ∀ p ∈ t.pieces, p.width ≠ 0)
    (h : t.remove offset width = some t') : ∀ p ∈ t'.pieces, p.width ≠ 0 := by
  by_cases hw0 : width = 0
  · subst hw0
    rw [show t.remove offset 0 = some t from rfl] at h
    injection h with h
    subst h
    exact hgood
  rcases hf1 : PieceTable.find_piece t.pieces offset with _ | start
  · rw [PieceTable.remove, if_neg hw0] at h
    simp [hf1] at h
  rcases hf2 : PieceTable.find_piece t.pieces (offset + width) with _ | stop
  · rw [PieceTable.remove, if_neg hw0] at h
    simp [hf1, hf2] at h
  rcases hg1 : t.pieces.get? start.piece_index with _ | ps
  · rw [PieceTable.remove, if_neg hw0] at h
    rw [List.get?_eq_getElem? ] at hg1
    simp [hf1, hf2, hg1] at h
  rcases hg2 : t.pieces.get? stop.piece_index with _ | pe
  · rw [PieceTable.remove, if_neg hw0] at h
    rw [List.get?_eq_getElem? ] at hg2
    simp [hf1, hf2, hg1, hg2] at h
  rw [remove_eq_of_find t offset width hw0 start stop ps pe hf1 hf2 hg1 hg2] at h
  injection h with h
  subst h
  intro q hq
  rcases mem_listSplice _ _ _ _ _ hq with hq | hq
  · simpa using (List.mem_filter.mp hq).2
  · exact hgood q hq

lemma reach_wf_good (t : PieceTable) (ht : Reach t) :
    t.Wf ∧ ∀ p ∈ t.pieces, p.width ≠ 0 := by
  induction ht with
  | fromStr s hs =>
    constructor
    · intro p hp
      rw [List.mem_singleton.mp hp]
      simp [PieceTable.fromString, PieceTable.buffer_for]
    · intro p hp
      rw [List.mem_singleton.mp hp]
      simpa using List.length_pos.mpr hs |>.ne'
  | defaultTable =>
    exact ⟨fun p hp => by simp [PieceTable.defaultTable] at hp,
           fun p hp => by simp [PieceTable.defaultTable] at hp⟩
  | insertStep t t' offset s hs ht h ih =>
    exact ⟨insert_wf t t' offset s ih.1 h, insert_good t t' offset s ih.2 hs h⟩
  | removeStep t t' offset width ht h ih =>
    exact ⟨remove_wf t t' offset width ih.1 h, remove_good t t' offset width ih.2 h⟩

/-- C3 (amended): with non-empty initial and inserted strings, no stored
piece ever has width 0, and the piece widths always sum to the gathered
length. -/
theorem c3_width_invariant (t : PieceTable) (ht : Reach t) :
    (∀ p ∈ t.pieces, p.width ≠ 0) ∧ piecesWidth t.pieces = t.gather.length := by
  obtain ⟨hwf, hgood⟩ := reach_wf_good t ht
  exact ⟨hgood, (gather_length t hwf).symm⟩

/-- C3 counterexample: a table built from the empty initial string stores a
width-0 piece, and inserting the empty string at offset 0 of `"ab"` stores a
width-0 piece (while the claim explicitly includes empty inserts). -/
theorem c3_counterexample :
    (∃ p ∈ (PieceTable.fromString []).pieces, p.width = 0) ∧
    ((PieceTable.fromString ['a', 'b']).insert 0 [] =
        some ⟨['a', 'b'], [], [⟨0, 0, PieceKind.append⟩, ⟨0, 2, PieceKind.original⟩]⟩ ∧
      ∃ p ∈ [(⟨0, 0, PieceKind.append⟩ : Piece), ⟨0, 2, PieceKind.original⟩], p.width = 0) := by
  refine ⟨by decide, by decide, by decide⟩

/-- C3 witness: the amended invariant at a concrete reachable table. -/
theorem c3_witness :
    (∀ p ∈ (PieceTable.fromString ['a']).pieces, p.width ≠ 0) ∧
    piecesWidth (PieceTable.fromString ['a']).pieces =
      (PieceTable.fromString ['a']).gather.length :=
  c3_width_invariant (PieceTable.fromString ['a']) (Reach.fromStr ['a'] (by decide))

lemma insert_isSome (t : PieceTable) (offset : Nat) (s : List Char)
    (hwf : t.Wf) (hne : t.pieces ≠ []) (hoff : offset ≤ t.gather.length) :
    (t.insert offset s).isSome := by
  have hlen : t.gather.length = piecesWidth t.pieces := gather_length t hwf
  obtain ⟨pos, hfind⟩ :=
    Option.isSome_iff_exists.mp (find_piece_isSome t.pieces offset hne (by omega))
  obtain ⟨p, hget, _, _, _⟩ := find_piece_spec t.pieces offset pos hfind
  rw [insert_eq_of_find t offset s pos p hfind hget]
  rfl

lemma remove_isSome (t : PieceTable) (offset width : Nat)
    (hwf : t.Wf) (hval : offset + width ≤ t.gather.length) :
    (t.remove offset width).isSome := by
  by_cases hw0 : width = 0
  · subst hw0
    rfl
  have hlen : t.gather.length = piecesWidth t.pieces := gather_length t hwf
  have hne : t.pieces ≠ [] := by
    intro h
    rw [h] at hlen
    simp only [piecesWidth_nil] at hlen
    omega
  obtain ⟨start, hf1⟩ :=
    Option.isSome_iff_exists.mp (find_piece_isSome t.pieces offset hne (by omega))
  obtain ⟨stop, hf2⟩ :=
    Option.isSome_iff_exists.mp
      (find_piece_isSome t.pieces (offset + width) hne (by omega))
  obtain ⟨ps, hg1, _, _, _⟩ := find_piece_spec t.pieces offset start hf1
  obtain ⟨pe, hg2, _, _, _⟩ := find_piece_spec t.pieces (offset + width) stop hf2
  rw [remove_eq_of_find t offset width hw0 start stop ps pe hf1 hf2 hg1 hg2]
  rfl

/-- C4 (amended): on every well-formed table with at least one stored piece,
`insert` with `offset ≤ length` and `remove` with `offset + width ≤ length`
never reach their failure branch. -/
theorem c4_lookup_total (t : PieceTable) (o1 o2 w : Nat) (s : List Char)
    (hwf : t.Wf) (hne : t.pieces ≠ []) (h1 : o1 ≤ t.gather.length)
    (h2 : o2 + w ≤ t.gather.length) :
    (t.insert o1 s).isSome ∧ (t.remove o2 w).isSome :=
  ⟨insert_isSome t o1 s hwf hne h1, remove_isSome t o2 w hwf h2⟩

/-- C4 counterexample: the empty table (no pieces) has `currentLength = 0`,
so `offset = 0` satisfies the stated precondition, yet the piece lookup
fails and `insert` reaches its failure branch. -/
theorem c4_counterexample :
    PieceTable.defaultTable.gather.length = 0 ∧
    PieceTable.find_piece PieceTable.defaultTable.pieces 0 = none ∧
    PieceTable.defaultTable.insert 0 ['y'] = none := ⟨rfl, rfl, rfl⟩

/-- C4 witness: concrete instance of the amended theorem. -/
theorem c4_witness :
    ((PieceTable.fromString ['a', 'b']).insert 2 ['z']).isSome ∧
    ((PieceTable.fromString ['a', 'b']).remove 0 2).isSome :=
  c4_lookup_total (PieceTable.fromString ['a', 'b']) 2 0 2 ['z']
    (by decide) (by decide) (by decide) (by decide)

lemma get?_set_self {α : Type} (xs : List α) (i : Nat) (a : α) (h : i < xs.length) :
    (xs.set i a).get? i = some a := by
  rw [List.get?_eq_getElem?]
  exact List.getElem?_set_eq_of_lt a h

/-- Successful vertical split, computed (editor.rs:278-292): the focused
slot is overwritten with the halved window, the new right window is pushed
onto the arena, and its id is appended to the tab's open-window list. -/
lemma vertical_split_eq (e : Editor) (tab : Tab) (win : Window)
    (ht : e.tabs.get? e.current_tab = some tab)
    (hw : e.windows.get? tab.window_focus = some win) (h6 : 6 ≤ win.size.width) :
    e.vertical_split_window = some { e with
      windows := (e.windows.set tab.window_focus (vsplit_left win)) ++ [vsplit_right win],
      tabs := e.tabs.set e.current_tab
        { tab with open_windows := tab.open_windows ++ [e.windows.length] } } := by
  simp only [Editor.vertical_split_window, ht, hw, Option.pure_def, Option.bind_eq_bind,
    Option.some_bind]
  rw [if_neg (by omega)]
  rfl

/-- Successful horizontal split, computed (editor.rs:294-308). -/
lemma horizontal_split_eq (e : Editor) (tab : Tab) (win : Window)
    (ht : e.tabs.get? e.current_tab = some tab)
    (hw : e.windows.get? tab.window_focus = some win) (h6 : 6 ≤ win.size.height) :
    e.horizontal_split_window = some { e with
      windows := (e.windows.set tab.window_focus (hsplit_above win)) ++ [hsplit_below win],
      tabs := e.tabs.set e.current_tab
        { tab with open_windows := tab.open_windows ++ [e.windows.length] } } := by
  simp only [Editor.horizontal_split_window, ht, hw, Option.pure_def, Option.bind_eq_bind,
    Option.some_bind]
  rw [if_neg (by omega)]
  rfl

/-- C5: splitting a window of size `W ≥ 6` along a dimension yields two
windows whose sizes along it sum to `W` and differ by at most one, the
remainder going to the second (new) window; a window with `W < 6` refuses
the split, leaving the arena and the tab's open-window list unchanged and
setting a non-empty status message. -/
theorem c5_split_invariant (e : Editor) (tab : Tab) (win : Window)
    (ht : e.tabs.get? e.current_tab = some tab)
    (hw : e.windows.get? tab.window_focus = some win) :
    ((6 ≤ win.size.width →
      e.vertical_split_window = some { e with
          windows := (e.windows.set tab.window_focus (vsplit_left win)) ++ [vsplit_right win],
          tabs := e.tabs.set e.current_tab
            { tab with open_windows := tab.open_windows ++ [e.windows.length] } } ∧
      (vsplit_left win).size.width + (vsplit_right win).size.width = win.size.width ∧
      (vsplit_left win).size.width ≤ (vsplit_right win).size.width ∧
      (vsplit_right win).size.width ≤ (vsplit_left win).size.width + 1 ∧
      (vsplit_right win).size.width = win.size.width / 2 + win.size.width % 2) ∧
     (win.size.width < 6 →
      ∃ m, e.vertical_split_window = some (e.emit_message m) ∧ m ≠ "" ∧
        (e.emit_message m).windows = e.windows ∧ (e.emit_message m).tabs = e.tabs)) ∧
    ((6 ≤ win.size.height →
      e.horizontal_split_window = some { e with
          windows := (e.windows.set tab.window_focus (hsplit_above win)) ++ [hsplit_below win],
          tabs := e.tabs.set e.current_tab
            { tab with open_windows := tab.open_windows ++ [e.windows.length] } } ∧
      (hsplit_above win).size.height + (hsplit_below win).size.height = win.size.height ∧
      (hsplit_above win).size.height ≤ (hsplit_below win).size.height ∧
      (hsplit_below win).size.height ≤ (hsplit_above win).size.height + 1 ∧
      (hsplit_below win).size.height = win.size.height / 2 + win.size.height % 2) ∧
     (win.size.height < 6 →
      ∃ m, e.horizontal_split_window = some (e.emit_message m) ∧ m ≠ "" ∧
        (e.emit_message m).windows = e.windows ∧ (e.emit_message m).tabs = e.tabs)) := by
  refine ⟨⟨?_, ?_⟩, ?_, ?_⟩
  · intro h6
    refine ⟨vertical_split_eq e tab win ht hw h6, ?_, ?_, ?_, ?_⟩
    · simp only [vsplit_left, vsplit_right, Window.keep_cursor_within_bounds]
      omega
    · simp only [vsplit_left, vsplit_right, Window.keep_cursor_within_bounds]
      omega
    · simp only [vsplit_left, vsplit_right, Window.keep_cursor_within_bounds]
      omega
    · simp only [vsplit_left, vsplit_right, Window.keep_cursor_within_bounds]
  · intro h6
    simp only [Editor.vertical_split_window, ht, hw, Option.pure_def, Option.bind_eq_bind,
      Option.some_bind]
    rw [if_pos h6]
    exact ⟨_, rfl, by decide, rfl, rfl⟩
  · intro h6
    refine ⟨horizontal_split_eq e tab win ht hw h6, ?_, ?_, ?_, ?_⟩
    · simp only [hsplit_above, hsplit_below, Window.keep_cursor_within_bounds]
      omega
    · simp only [hsplit_above, hsplit_below, Window.keep_cursor_within_bounds]
      omega
    · simp only [hsplit_above, hsplit_below, Window.keep_cursor_within_bounds]
      omega
    · simp only [hsplit_above, hsplit_below, Window.keep_cursor_within_bounds]
  · intro h6
    simp only [Editor.horizontal_split_window, ht, hw, Option.pure_def, Option.bind_eq_bind,
      Option.some_bind]
    rw [if_pos h6]
    exact ⟨_, rfl, by decide, rfl, rfl⟩

/-- C5 witness: the fresh 21-wide window splits into widths 10 and 11. -/
theorem c5_witness :
    c5_editor.vertical_split_window = some { c5_editor with
        windows := (c5_editor.windows.set c5_tab.window_focus (vsplit_left c5_win)) ++
          [vsplit_right c5_win],
        tabs := c5_editor.tabs.set c5_editor.current_tab
          { c5_tab with open_windows := c5_tab.open_windows ++ [c5_editor.windows.length] } } ∧
    (vsplit_left c5_win).size.width + (vsplit_right c5_win).size.width = c5_win.size.width ∧
    (vsplit_left c5_win).size.width ≤ (vsplit_right c5_win).size.width ∧
    (vsplit_right c5_win).size.width ≤ (vsplit_left c5_win).size.width + 1 :=
  let h := (c5_split_invariant c5_editor c5_tab c5_win (by decide) (by decide)).1.1
    (by decide)
  ⟨h.1, h.2.1, h.2.2.1, h.2.2.2.1⟩

lemma head?_eq_some_mem {α : Type} (l : List α) (a : α) (h : l.head? = some a) : a ∈ l := by
  cases l with
  | nil => simp at h
  | cons b bs =>
    rw [List.head?_cons] at h
    injection h with h
    subst h
    exact List.mem_cons_self b bs

/-- The first element of a `flat_map` comes from the first list element whose
image is non-empty, and every scan element before it contributes nothing. -/
lemma head?_flatMap_eq_some {α β : Type} (f : α → List β) (l : List α) (b : β)
    (h : (l.flatMap f).head? = some b) :
    ∃ pre x post, l = pre ++ x :: post ∧ (∀ y ∈ pre, f y = []) ∧ (f x).head? = some b := by
  induction l with
  | nil => simp at h
  | cons a l ih =>
    rw [List.flatMap_cons] at h
    cases hfa : f a with
    | nil =>
      rw [hfa, List.nil_append] at h
      obtain ⟨pre, x, post, hdec, hpre, hx⟩ := ih h
      refine ⟨a :: pre, x, post, by rw [hdec]; rfl, ?_, hx⟩
      intro y hy
      rcases List.mem_cons.mp hy with rfl | hy
      · exact hfa
      · exact hpre y hy
    | cons c cs =>
      rw [hfa, List.cons_append, List.head?_cons] at h
      refine ⟨[], a, l, rfl, ?_, ?_⟩
      · intro y hy
        simp at hy
      · rw [hfa, List.head?_cons]
        exact h

/-- C6: directional focus.  If the beam finds nothing the editor is
unchanged; if it finds `id`, then `id` is an open window of the current tab
other than the focused one, it contains a scanned cell, every cell scanned
earlier hits no eligible window, and `id` is the first eligible window in
the tab's open-window order at its cell.  Concretely, in a 2-by-2 tiling,
moving right from the top-left window focuses the top-right one, and moving
right again changes nothing. -/
theorem c6_move_focus (e : Editor) (tab : Tab) (win : Window) (d : Direction)
    (ht : e.tabs.get? e.current_tab = some tab)
    (hw : e.windows.get? tab.window_focus = some win) :
    (e.send_cursor_focus_beam d = some none → e.move_focus d = some e) ∧
    (∀ id, e.send_cursor_focus_beam d = some (some id) →
      e.move_focus d = e.set_window_focus id ∧
      id ∈ tab.open_windows ∧ id ≠ tab.window_focus ∧
      ∃ pre pos post,
        e.beam_cells win (win.position.offset win.cursor) d = pre ++ pos :: post ∧
        (∀ q ∈ pre, tab.open_windows.filter (fun j =>
          decide (j ≠ tab.window_focus) && e.window_contains j q) = []) ∧
        (tab.open_windows.filter (fun j =>
          decide (j ≠ tab.window_focus) && e.window_contains j pos)).head? = some id ∧
        e.window_contains id pos = true) ∧
    (grid_editor.move_focus .right = some grid_after ∧
      grid_after.window_focus? = some 1 ∧
      grid_after.move_focus .right = some grid_after) := by
  refine ⟨?_, ?_, by decide, by decide, by decide⟩
  · intro h
    simp [Editor.move_focus, h]
  · intro id h
    have ht' : e.tabs[e.current_tab]? = some tab := by
      rw [← List.get?_eq_getElem? ]
      exact ht
    have hw' : e.windows[tab.window_focus]? = some win := by
      rw [← List.get?_eq_getElem? ]
      exact hw
    have hsend : e.send_cursor_focus_beam d =
        some ((e.beam_cells win (win.position.offset win.cursor) d).flatMap (fun position =>
          tab.open_windows.filter (fun j =>
            decide (j ≠ tab.window_focus) && e.window_contains j position))).head? := by
      simp only [Editor.send_cursor_focus_beam, Editor.run_cursor_focus_beam, ht, hw,
        Option.some_bind, Option.pure_def, Option.bind_eq_bind]
    have hhead : ((e.beam_cells win (win.position.offset win.cursor) d).flatMap
        (fun position => tab.open_windows.filter (fun j =>
          decide (j ≠ tab.window_focus) && e.window_contains j position))).head?
        = some id := by
      rw [hsend] at h
      exact Option.some.inj h
    refine ⟨?_, ?_⟩
    · simp only [Editor.move_focus, hsend, hhead, Option.pure_def, Option.bind_eq_bind,
        Option.some_bind]
    · obtain ⟨pre, pos, post, hdec, hpre, hpos⟩ := head?_flatMap_eq_some _ _ _ hhead
      have hmem := List.mem_filter.mp (head?_eq_some_mem _ _ hpos)
      have hpred := hmem.2
      rw [Bool.and_eq_true, decide_eq_true_eq] at hpred
      exact ⟨hmem.1, hpred.1, pre, pos, post, hdec, hpre, hpos, hpred.2⟩

/-- C6 witness: the 2-by-2 scenario extracted from the theorem at the
concrete grid editor. -/
theorem c6_witness :
    grid_editor.move_focus .right = some grid_after ∧
    grid_after.window_focus? = some 1 ∧
    grid_after.move_focus .right = some grid_after :=
  (c6_move_focus grid_editor ⟨[0, 1, 2, 3], 0⟩ (grid_window 0 0) .right
    (by decide) (by decide)).2.2

lemma listInsertAt_length {α : Type} (xs : List α) (i : Nat) (a : α) (h : i ≤ xs.length) :
    (listInsertAt xs i a).length = xs.length + 1 := by
  simp only [listInsertAt, List.length_append, List.length_take, List.length_cons,
    List.length_drop]
  omega

lemma get?_listInsertAt_self {α : Type} (xs : List α) (i : Nat) (a : α) (h : i ≤ xs.length) :
    (listInsertAt xs i a).get? i = some a := by
  unfold listInsertAt
  have hl : (xs.take i).length = i := by
    rw [List.length_take]
    omega
  rw [List.get?_append_right (le_of_eq hl), hl, Nat.sub_self]
  rfl

lemma eraseIdx_listInsertAt {α : Type} (xs : List α) (i : Nat) (a : α) (h : i ≤ xs.length) :
    (listInsertAt xs i a).eraseIdx i = xs := by
  rw [List.eraseIdx_eq_take_drop_succ]
  unfold listInsertAt
  have hl : (xs.take i).length = i := by
    rw [List.length_take]
    omega
  rw [List.take_append_eq_append_take, List.drop_append_eq_append_drop, hl,
    Nat.sub_self, List.take_zero, List.append_nil, List.take_take, min_self,
    List.drop_eq_nil_of_le (by omega), List.nil_append]
  have h1 : i + 1 - i = 1 := by omega
  rw [h1, List.drop_succ_cons, List.drop_zero, List.take_append_drop]

/-- What a successful `tab_open` produces (editor.rs:192-196): the new tab
(whose sole window is the freshly pushed arena slot) is inserted right after
the current one, which becomes current. -/
lemma tab_open_spec (e : Editor) (h : e.current_tab < e.tabs.length) :
    ∃ e1, e.tab_open = some e1 ∧
      e1.tabs = listInsertAt e.tabs (e.current_tab + 1)
        ⟨[e.windows.length], e.windows.length⟩ ∧
      e1.current_tab = e.current_tab + 1 ∧
      e1.windows.length = e.windows.length + 1 := by
  simp only [Editor.tab_open, Editor.new_tab, Editor.set_current_tab, Editor.force_redraw]
  rw [if_pos (by rw [listInsertAt_length _ _ _ (by omega)]; omega)]
  refine ⟨_, rfl, rfl, rfl, ?_⟩
  simp

/-- What a successful `tab_close` does when more than one tab exists
(editor.rs:198-210). -/
lemma tab_close_spec (e : Editor) (tab : Tab) (hne : e.tabs.length ≠ 1)
    (ht : e.tabs.get? e.current_tab = some tab) :
    ∃ e2, e.tab_close = some e2 ∧
      e2.tabs = e.tabs.eraseIdx e.current_tab ∧
      e2.current_tab = (if e.current_tab = (e.tabs.eraseIdx e.current_tab).length
        then e.current_tab - 1 else e.current_tab) := by
  have hcur : e.current_tab < e.tabs.length := (List.get?_eq_some.mp ht).1
  have hlen : (e.tabs.eraseIdx e.current_tab).length = e.tabs.length - 1 := by
    rw [List.eraseIdx_eq_take_drop_succ]
    simp only [List.length_append, List.length_take, List.length_drop]
    omega
  rw [Editor.tab_close, if_neg hne]
  simp only [Editor.set_current_tab, Editor.force_redraw, ht, Option.pure_def,
    Option.bind_eq_bind, Option.some_bind]
  by_cases hb : e.current_tab = (e.tabs.eraseIdx e.current_tab).length
  · rw [if_pos hb, if_pos (show e.current_tab - 1 < (e.tabs.eraseIdx e.current_tab).length
      by omega)]
    refine ⟨_, rfl, rfl, ?_⟩
    rw [if_pos hb]
  · rw [if_neg hb]
    refine ⟨_, rfl, rfl, ?_⟩
    rw [if_neg hb]

/-- C7 counterexample: start from a fresh editor, open a tab, move back to
tab 0 (two tabs, current 0), then open and immediately close a tab: the tab
count returns to 2 but the current-tab index ends at 1, not its pre-open
value 0. -/
theorem c7_counterexample :
    (do
      let e1 ← (Editor.new ⟨20, 10⟩).tab_open
      let e2 ← e1.tab_previous
      let e3 ← e2.tab_open
      let e4 ← e3.tab_close
      return (e2.current_tab, e2.tabs.length, e4.current_tab, e4.tabs.length))
    = some (0, 2, 1, 2) := by decide

/-- C7 (amended): opening then immediately closing a tab returns the tab
list (hence the tab count) to its pre-open value; the current-tab index
returns to its pre-open value exactly when the pre-open current tab was the
last one, and otherwise ends one past it.  Closing the sole remaining tab
is rejected with a status message and changes neither the tab list nor the
index. -/
theorem c7_tab_open_close (e : Editor) (h : e.current_tab < e.tabs.length) :
    (∃ e1 e2, e.tab_open = some e1 ∧ e1.tab_close = some e2 ∧
      e2.tabs = e.tabs ∧ e2.tabs.length = e.tabs.length ∧
      (e.current_tab + 1 = e.tabs.length → e2.current_tab = e.current_tab) ∧
      (e.current_tab + 1 < e.tabs.length → e2.current_tab = e.current_tab + 1)) ∧
    (e.tabs.length = 1 →
      e.tab_close = some (e.emit_message "Cannot close last tab") ∧
      (e.emit_message "Cannot close last tab").tabs = e.tabs ∧
      (e.emit_message "Cannot close last tab").current_tab = e.current_tab ∧
      "Cannot close last tab" ≠ "") := by
  constructor
  · obtain ⟨e1, hopen, htabs1, hcur1, _⟩ := tab_open_spec e h
    have hlen1 : e1.tabs.length = e.tabs.length + 1 := by
      rw [htabs1, listInsertAt_length _ _ _ (by omega)]
    have hget1 : e1.tabs.get? e1.current_tab =
        some ⟨[e.windows.length], e.windows.length⟩ := by
      rw [htabs1, hcur1, get?_listInsertAt_self _ _ _ (by omega)]
    obtain ⟨e2, hclose, htabs2, hcur2⟩ := tab_close_spec e1 _ (by omega) hget1
    have herase : e1.tabs.eraseIdx e1.current_tab = e.tabs := by
      rw [htabs1, hcur1, eraseIdx_listInsertAt _ _ _ (by omega)]
    rw [herase] at htabs2 hcur2
    refine ⟨e1, e2, hopen, hclose, htabs2, by rw [htabs2], ?_, ?_⟩
    · intro hlast
      rw [hcur2, hcur1, if_pos (by omega)]
      omega
    · intro hmid
      rw [hcur2, hcur1, if_neg (by omega)]
  · intro h1
    refine ⟨?_, rfl, rfl, by decide⟩
    simp only [Editor.tab_close]
    rw [if_pos h1]

/-- C7 witness: the amended claim at a fresh single-tab editor. -/
theorem c7_witness :
    (∃ e1 e2, (Editor.new ⟨20, 10⟩).tab_open = some e1 ∧ e1.tab_close = some e2 ∧
      e2.tabs = (Editor.new ⟨20, 10⟩).tabs ∧
      e2.tabs.length = (Editor.new ⟨20, 10⟩).tabs.length ∧
      ((Editor.new ⟨20, 10⟩).current_tab + 1 = (Editor.new ⟨20, 10⟩).tabs.length →
        e2.current_tab = (Editor.new ⟨20, 10⟩).current_tab) ∧
      ((Editor.new ⟨20, 10⟩).current_tab + 1 < (Editor.new ⟨20, 10⟩).tabs.length →
        e2.current_tab = (Editor.new ⟨20, 10⟩).current_tab + 1)) ∧
    ((Editor.new ⟨20, 10⟩).tabs.length = 1 →
      (Editor.new ⟨20, 10⟩).tab_close =
        some ((Editor.new ⟨20, 10⟩).emit_message "Cannot close last tab") ∧
      ((Editor.new ⟨20, 10⟩).emit_message "Cannot close last tab").tabs =
        (Editor.new ⟨20, 10⟩).tabs ∧
      ((Editor.new ⟨20, 10⟩).emit_message "Cannot close last tab").current_tab =
        (Editor.new ⟨20, 10⟩).current_tab ∧
      "Cannot close last tab" ≠ "") :=
  c7_tab_open_close (Editor.new ⟨20, 10⟩) (by decide)

/-- C8 counterexample: open and close a tab so the arena holds a closed,
recyclable slot (index 1); a vertical split then grows the arena from 2 to
3 slots and leaves slot 1 closed, while `new_window` itself would have
returned slot 1 without growing the arena. -/
theorem c8_counterexample :
    (do
      let e1 ← (Editor.new ⟨20, 10⟩).tab_open
      let e2 ← e1.tab_close
      let e3 ← e2.vertical_split_window
      return (e2.windows.length, (e2.windows.get? 1).map Window.is_open,
        e3.windows.length, (e3.windows.get? 1).map Window.is_open,
        (e2.new_window).1, (e2.new_window).2.windows.length))
    = some (2, some false, 3, some false, 1, 2) := by decide

/-- C8 (amended): a successful split always appends a fresh window, growing
the arena by one, even when a closed slot exists; the arena helper
`new_window` (which splits never call) is the one that reuses a closed slot
when one exists and grows the arena only otherwise. -/
theorem c8_split_always_appends (e : Editor) (tab : Tab) (win : Window)
    (ht : e.tabs.get? e.current_tab = some tab)
    (hw : e.windows.get? tab.window_focus = some win) :
    ((6 ≤ win.size.width → (e.vertical_split_window).map (fun x => x.windows.length) =
        some (e.windows.length + 1)) ∧
     (6 ≤ win.size.height → (e.horizontal_split_window).map (fun x => x.windows.length) =
        some (e.windows.length + 1))) ∧
    (∀ id w, e.windows.get? id = some w → w.is_open = false →
      (e.new_window).2 = e ∧
      ∃ w', e.windows.get? (e.new_window).1 = some w' ∧ w'.is_open = false) ∧
    ((∀ id w, e.windows.get? id = some w → w.is_open = true) →
      e.new_window = (e.windows.length, { e with
        windows := e.windows ++ [Window.defaultWindow] })) := by
  refine ⟨⟨?_, ?_⟩, ?_, ?_⟩
  · intro h6
    rw [vertical_split_eq e tab win ht hw h6]
    simp [List.length_set]
  · intro h6
    rw [horizontal_split_eq e tab win ht hw h6]
    simp [List.length_set]
  · intro id w hid hclosed
    have hlt : id < e.windows.length := (List.get?_eq_some.mp hid).1
    have hid' : e.windows[id]? = some w := by
      rw [← List.get?_eq_getElem? ]
      exact hid
    have hpred : (fun j => !(((e.windows.get? j).map Window.is_open).getD true)) id = true := by
      simp [List.get?_eq_getElem?, hid', hclosed]
    have hsome : ((List.range e.windows.length).find?
        (fun j => !(((e.windows.get? j).map Window.is_open).getD true))).isSome :=
      List.find?_isSome.mpr ⟨id, List.mem_range.mpr hlt, hpred⟩
    obtain ⟨j, hfind⟩ := Option.isSome_iff_exists.mp hsome
    have hj := List.find?_some hfind
    rcases hgj : e.windows.get? j with _ | wj
    · rw [hgj] at hj
      simp at hj
    · rw [hgj] at hj
      simp only [Option.map_some, Option.getD_some, Bool.not_eq_true'] at hj
      unfold Editor.new_window
      rw [hfind]
      exact ⟨rfl, wj, hgj, hj⟩
  · intro hall
    have hnone : (List.range e.windows.length).find?
        (fun j => !(((e.windows.get? j).map Window.is_open).getD true)) = none := by
      rw [List.find?_eq_none]
      intro j hj
      have hjlt := List.mem_range.mp hj
      rcases hgj : e.windows.get? j with _ | wj
      · rw [List.get?_eq_getElem? ] at hgj
        rw [List.getElem?_eq_none_iff] at hgj
        omega
      · simp [hall j wj hgj]
    unfold Editor.new_window
    rw [hnone]

/-- C8 witness: the amended claim at a fresh editor whose only window is
open and 20 wide. -/
theorem c8_witness :
    ((6 ≤ (⟨⟨0, 0⟩, ⟨0, 0⟩, ⟨20, 9⟩, none, true, true⟩ : Window).size.width →
      ((Editor.new ⟨20, 10⟩).vertical_split_window).map (fun x => x.windows.length) =
        some ((Editor.new ⟨20, 10⟩).windows.length + 1)) ∧
     (6 ≤ (⟨⟨0, 0⟩, ⟨0, 0⟩, ⟨20, 9⟩, none, true, true⟩ : Window).size.height →
      ((Editor.new ⟨20, 10⟩).horizontal_split_window).map (fun x => x.windows.length) =
        some ((Editor.new ⟨20, 10⟩).windows.length + 1))) ∧
    (∀ id w, (Editor.new ⟨20, 10⟩).windows.get? id = some w → w.is_open = false →
      ((Editor.new ⟨20, 10⟩).new_window).2 = Editor.new ⟨20, 10⟩ ∧
      ∃ w', (Editor.new ⟨20, 10⟩).windows.get? ((Editor.new ⟨20, 10⟩).new_window).1 =
        some w' ∧ w'.is_open = false) ∧
    ((∀ id w, (Editor.new ⟨20, 10⟩).windows.get? id = some w → w.is_open = true) →
      (Editor.new ⟨20, 10⟩).new_window = ((Editor.new ⟨20, 10⟩).windows.length,
        { Editor.new ⟨20, 10⟩ with
          windows := (Editor.new ⟨20, 10⟩).windows ++ [Window.defaultWindow] })) :=
  c8_split_always_appends (Editor.new ⟨20, 10⟩) ⟨[0], 0⟩
    ⟨⟨0, 0⟩, ⟨0, 0⟩, ⟨20, 9⟩, none, true, true⟩ (by decide) (by decide)

lemma rotate_fwd_mod (N n : Nat) (h : n < N) : rotate_forward 0 N n = (n + 1) % N := by
  unfold rotate_forward
  by_cases he : n + 1 = N
  · rw [if_pos he, he, Nat.mod_self]
  · rw [if_neg he, Nat.mod_eq_of_lt (by omega)]

lemma rotate_bwd_mod (N n : Nat) (h : n < N) : rotate_backward 0 N n = (n + (N - 1)) % N := by
  unfold rotate_backward
  by_cases he : n = 0
  · rw [if_pos he, he, Nat.zero_add, Nat.mod_eq_of_lt (by omega)]
  · rw [if_neg he]
    have harith : n + (N - 1) = (n - 1) + N := by omega
    rw [harith, Nat.add_mod_right, Nat.mod_eq_of_lt (by omega)]

/-- What a successful `set_window_focus` does: redraw flags aside, only the
current tab's focus changes. -/
lemma set_window_focus_spec (e : Editor) (tab : Tab) (new_focus : Nat)
    (ht : e.tabs.get? e.current_tab = some tab)
    (hf : tab.window_focus < e.windows.length) (hn : new_focus < e.windows.length) :
    ∃ e', e.set_window_focus new_focus = some e' ∧
      e'.current_tab = e.current_tab ∧ e'.tabs.length = e.tabs.length ∧
      e'.windows.length = e.windows.length ∧
      e'.tabs.get? e'.current_tab = some { tab with window_focus := new_focus } := by
  have hcur : e.current_tab < e.tabs.length := (List.get?_eq_some.mp ht).1
  obtain ⟨w1, hw1⟩ : ∃ w1, e.windows.get? tab.window_focus = some w1 := by
    rw [List.get?_eq_getElem?, List.getElem?_eq_getElem hf]
    exact ⟨_, rfl⟩
  have h2 : new_focus <
      (e.windows.set tab.window_focus { w1 with redraw := true }).length := by
    rw [List.length_set]
    exact hn
  obtain ⟨w2, hw2⟩ : ∃ w2, (e.windows.set tab.window_focus
      { w1 with redraw := true }).get? new_focus = some w2 := by
    rw [List.get?_eq_getElem?, List.getElem?_eq_getElem h2]
    exact ⟨_, rfl⟩
  simp only [Editor.set_window_focus, ht, hw1, hw2, Option.pure_def, Option.bind_eq_bind,
    Option.some_bind]
  refine ⟨_, rfl, rfl, by simp [List.length_set], by simp [List.length_set], ?_⟩
  exact get?_set_self _ _ _ hcur

/-- One forward rotation steps the focus by `+1` modulo the whole window
arena length. -/
lemma rotate_fwd_step (e : Editor) (tab : Tab)
    (ht : e.tabs.get? e.current_tab = some tab)
    (hf : tab.window_focus < e.windows.length) :
    ∃ e', e.rotate_focus_forward = some e' ∧
      e'.current_tab = e.current_tab ∧ e'.tabs.length = e.tabs.length ∧
      e'.windows.length = e.windows.length ∧
      e'.tabs.get? e'.current_tab =
        some { tab with window_focus := (tab.window_focus + 1) % e.windows.length } := by
  have hn : rotate_forward 0 e.windows.length tab.window_focus < e.windows.length := by
    rw [rotate_fwd_mod _ _ hf]
    exact Nat.mod_lt _ (by omega)
  obtain ⟨e', hs, h1, h2, h3, h4⟩ := set_window_focus_spec e tab _ ht hf hn
  rw [rotate_fwd_mod _ _ hf] at h4
  refine ⟨e', ?_, h1, h2, h3, h4⟩
  simp only [Editor.rotate_focus_forward, Editor.window_focus?, ht, Option.map_some,
    Option.pure_def, Option.bind_eq_bind, Option.some_bind]
  exact hs

/-- One backward rotation steps the focus by `+(N-1)` modulo `N`. -/
lemma rotate_bwd_step (e : Editor) (tab : Tab)
    (ht : e.tabs.get? e.current_tab = some tab)
    (hf : tab.window_focus < e.windows.length) :
    ∃ e', e.rotate_focus_backward = some e' ∧
      e'.current_tab = e.current_tab ∧ e'.tabs.length = e.tabs.length ∧
      e'.windows.length = e.windows.length ∧
      e'.tabs.get? e'.current_tab = some { tab with window_focus :=
        (tab.window_focus + (e.windows.length - 1)) % e.windows.length } := by
  have hn : rotate_backward 0 e.windows.length tab.window_focus < e.windows.length := by
    rw [rotate_bwd_mod _ _ hf]
    exact Nat.mod_lt _ (by omega)
  obtain ⟨e', hs, h1, h2, h3, h4⟩ := set_window_focus_spec e tab _ ht hf hn
  rw [rotate_bwd_mod _ _ hf] at h4
  refine ⟨e', ?_, h1, h2, h3, h4⟩
  simp only [Editor.rotate_focus_backward, Editor.window_focus?, ht, Option.map_some,
    Option.pure_def, Option.bind_eq_bind, Option.some_bind]
  exact hs

lemma rotate_fwd_iterate (k : Nat) : ∀ (e : Editor) (tab : Tab),
    e.tabs.get? e.current_tab = some tab →
    tab.window_focus < e.windows.length →
    ∃ e' tab', iterateOpt Editor.rotate_focus_forward k e = some e' ∧
      e'.windows.length = e.windows.length ∧
      e'.tabs.get? e'.current_tab = some tab' ∧
      tab'.window_focus = (tab.window_focus + k) % e.windows.length := by
  induction k with
  | zero =>
    intro e tab ht hf
    exact ⟨e, tab, rfl, rfl, ht, by rw [Nat.add_zero, Nat.mod_eq_of_lt hf]⟩
  | succ k ih =>
    intro e tab ht hf
    obtain ⟨e1, hs, hc1, hl1, hwl1, hg1⟩ := rotate_fwd_step e tab ht hf
    have hf1 : ({ tab with window_focus := (tab.window_focus + 1) % e.windows.length }
        : Tab).window_focus < e1.windows.length := by
      simp only
      rw [hwl1]
      exact Nat.mod_lt _ (by omega)
    obtain ⟨e', tab', hit, hwl, hget, hfoc⟩ := ih e1 _ hg1 hf1
    refine ⟨e', tab', ?_, by rw [hwl, hwl1], hget, ?_⟩
    · show (e.rotate_focus_forward).bind (iterateOpt Editor.rotate_focus_forward k) =
        some e'
      rw [hs, Option.some_bind]
      exact hit
    · rw [hfoc]
      simp only
      rw [hwl1, Nat.mod_add_mod]
      congr 1
      omega

lemma rotate_bwd_iterate (k : Nat) : ∀ (e : Editor) (tab : Tab),
    e.tabs.get? e.current_tab = some tab →
    tab.window_focus < e.windows.length →
    ∃ e' tab', iterateOpt Editor.rotate_focus_backward k e = some e' ∧
      e'.windows.length = e.windows.length ∧
      e'.tabs.get? e'.current_tab = some tab' ∧
      tab'.window_focus =
        (tab.window_focus + k * (e.windows.length - 1)) % e.windows.length := by
  induction k with
  | zero =>
    intro e tab ht hf
    exact ⟨e, tab, rfl, rfl, ht, by rw [Nat.zero_mul, Nat.add_zero, Nat.mod_eq_of_lt hf]⟩
  | succ k ih =>
    intro e tab ht hf
    obtain ⟨e1, hs, hc1, hl1, hwl1, hg1⟩ := rotate_bwd_step e tab ht hf
    have hf1 : ({ tab with window_focus :=
        (tab.window_focus + (e.windows.length - 1)) % e.windows.length }
        : Tab).window_focus < e1.windows.length := by
      simp only
      rw [hwl1]
      exact Nat.mod_lt _ (by omega)
    obtain ⟨e', tab', hit, hwl, hget, hfoc⟩ := ih e1 _ hg1 hf1
    refine ⟨e', tab', ?_, by rw [hwl, hwl1], hget, ?_⟩
    · show (e.rotate_focus_backward).bind (iterateOpt Editor.rotate_focus_backward k) =
        some e'
      rw [hs, Option.some_bind]
      exact hit
    · rw [hfoc]
      simp only
      rw [hwl1, Nat.mod_add_mod]
      congr 1
      rw [Nat.succ_mul]
      omega

/-- C9: with `N` the total window-arena size (open or closed slots alike),
`N` forward rotations return the current tab's focus to its original
handle, and likewise backward; each single rotation moves the focus through
the global handle sequence `0..N` with wrap-around. -/
theorem c9_rotate_focus_cycle (e : Editor) (tab : Tab)
    (ht : e.tabs.get? e.current_tab = some tab)
    (hf : tab.window_focus < e.windows.length) :
    (∃ e' tab', iterateOpt Editor.rotate_focus_forward e.windows.length e = some e' ∧
      e'.tabs.get? e'.current_tab = some tab' ∧
      tab'.window_focus = tab.window_focus) ∧
    (∃ e' tab', iterateOpt Editor.rotate_focus_backward e.windows.length e = some e' ∧
      e'.tabs.get? e'.current_tab = some tab' ∧
      tab'.window_focus = tab.window_focus) ∧
    (∀ e', e.rotate_focus_forward = some e' →
      ∃ tab', e'.tabs.get? e'.current_tab = some tab' ∧
        tab'.window_focus = rotate_forward 0 e.windows.length tab.window_focus) ∧
    (∀ e', e.rotate_focus_backward = some e' →
      ∃ tab', e'.tabs.get? e'.current_tab = some tab' ∧
        tab'.window_focus = rotate_backward 0 e.windows.length tab.window_focus) := by
  refine ⟨?_, ?_, ?_, ?_⟩
  · obtain ⟨e', tab', hit, _, hget, hfoc⟩ :=
      rotate_fwd_iterate e.windows.length e tab ht hf
    refine ⟨e', tab', hit, hget, ?_⟩
    rw [hfoc, Nat.add_mod_right, Nat.mod_eq_of_lt hf]
  · obtain ⟨e', tab', hit, _, hget, hfoc⟩ :=
      rotate_bwd_iterate e.windows.length e tab ht hf
    refine ⟨e', tab', hit, hget, ?_⟩
    rw [hfoc, Nat.mul_comm, Nat.add_mul_mod_self_right, Nat.mod_eq_of_lt hf]
  · intro e' hs
    obtain ⟨e'', hs'', _, _, _, hget⟩ := rotate_fwd_step e tab ht hf
    rw [hs] at hs''
    injection hs'' with hs''
    subst hs''
    exact ⟨_, hget, by rw [rotate_fwd_mod _ _ hf]⟩
  · intro e' hs
    obtain ⟨e'', hs'', _, _, _, hget⟩ := rotate_bwd_step e tab ht hf
    rw [hs] at hs''
    injection hs'' with hs''
    subst hs''
    exact ⟨_, hget, by rw [rotate_bwd_mod _ _ hf]⟩

/-- C9 witness: the cycle property at the four-window grid editor. -/
theorem c9_witness :
    (∃ e' tab', iterateOpt Editor.rotate_focus_forward grid_editor.windows.length
        grid_editor = some e' ∧
      e'.tabs.get? e'.current_tab = some tab' ∧
      tab'.window_focus = (⟨[0, 1, 2, 3], 0⟩ : Tab).window_focus) ∧
    (∃ e' tab', iterateOpt Editor.rotate_focus_backward grid_editor.windows.length
        grid_editor = some e' ∧
      e'.tabs.get? e'.current_tab = some tab' ∧
      tab'.window_focus = (⟨[0, 1, 2, 3], 0⟩ : Tab).window_focus) ∧
    (∀ e', grid_editor.rotate_focus_forward = some e' →
      ∃ tab', e'.tabs.get? e'.current_tab = some tab' ∧
        tab'.window_focus = rotate_forward 0 grid_editor.windows.length
          (⟨[0, 1, 2, 3], 0⟩ : Tab).window_focus) ∧
    (∀ e', grid_editor.rotate_focus_backward = some e' →
      ∃ tab', e'.tabs.get? e'.current_tab = some tab' ∧
        tab'.window_focus = rotate_backward 0 grid_editor.windows.length
          (⟨[0, 1, 2, 3], 0⟩ : Tab).window_focus) :=
  c9_rotate_focus_cycle grid_editor ⟨[0, 1, 2, 3], 0⟩ (by decide) (by decide)

lemma set_current_tab_inv (e e' : Editor) (t : Nat) (h : e.set_current_tab t = some e') :
    e'.tabs = e.tabs ∧ e'.current_tab = t ∧ t < e.tabs.length := by
  unfold Editor.set_current_tab at h
  by_cases hb : t < e.tabs.length
  · rw [if_pos hb] at h
    injection h with h
    subst h
    exact ⟨rfl, rfl, hb⟩
  · rw [if_neg hb] at h
    simp at h

lemma set_window_focus_inv (e e' : Editor) (n : Nat) (h : e.set_window_focus n = some e') :
    e'.tabs.length = e.tabs.length ∧ e'.current_tab = e.current_tab := by
  rcases ht : e.tabs.get? e.current_tab with _ | tab
  · simp only [Editor.set_window_focus, ht, Option.bind_eq_bind, Option.none_bind] at h
    exact Option.noConfusion h
  rcases hw1 : e.windows.get? tab.window_focus with _ | w1
  · simp only [Editor.set_window_focus, ht, hw1, Option.bind_eq_bind, Option.some_bind,
      Option.none_bind] at h
    exact Option.noConfusion h
  rcases hw2 : (e.windows.set tab.window_focus
      { w1 with redraw := true }).get? n with _ | w2
  · simp only [Editor.set_window_focus, ht, hw1, hw2, Option.bind_eq_bind,
      Option.some_bind, Option.none_bind] at h
    exact Option.noConfusion h
  simp only [Editor.set_window_focus, ht, hw1, hw2, Option.pure_def, Option.bind_eq_bind,
    Option.some_bind] at h
  injection h with h
  subst h
  exact ⟨by simp [List.length_set], rfl⟩

lemma vertical_split_inv (e e' : Editor) (h : e.vertical_split_window = some e') :
    e'.tabs.length = e.tabs.length ∧ e'.current_tab = e.current_tab := by
  rcases ht : e.tabs.get? e.current_tab with _ | tab
  · simp only [Editor.vertical_split_window, ht, Option.bind_eq_bind, Option.none_bind] at h
    exact Option.noConfusion h
  rcases hw : e.windows.get? tab.window_focus with _ | win
  · simp only [Editor.vertical_split_window, ht, hw, Option.bind_eq_bind,
      Option.some_bind, Option.none_bind] at h
    exact Option.noConfusion h
  simp only [Editor.vertical_split_window, ht, hw, Option.pure_def, Option.bind_eq_bind,
    Option.some_bind] at h
  by_cases h6 : win.size.width < 6
  · rw [if_pos h6] at h
    injection h with h
    subst h
    exact ⟨rfl, rfl⟩
  · rw [if_neg h6] at h
    injection h with h
    subst h
    exact ⟨by simp [List.length_set], rfl⟩

lemma horizontal_split_inv (e e' : Editor) (h : e.horizontal_split_window = some e') :
    e'.tabs.length = e.tabs.length ∧ e'.current_tab = e.current_tab := by
  rcases ht : e.tabs.get? e.current_tab with _ | tab
  · simp only [Editor.horizontal_split_window, ht, Option.bind_eq_bind,
      Option.none_bind] at h
    exact Option.noConfusion h
  rcases hw : e.windows.get? tab.window_focus with _ | win
  · simp only [Editor.horizontal_split_window, ht, hw, Option.bind_eq_bind,
      Option.some_bind, Option.none_bind] at h
    exact Option.noConfusion h
  simp only [Editor.horizontal_split_window, ht, hw, Option.pure_def, Option.bind_eq_bind,
    Option.some_bind] at h
  by_cases h6 : win.size.height < 6
  · rw [if_pos h6] at h
    injection h with h
    subst h
    exact ⟨rfl, rfl⟩
  · rw [if_neg h6] at h
    injection h with h
    subst h
    exact ⟨by simp [List.length_set], rfl⟩

lemma move_cursor_inv (e e' : Editor) (d : Direction) (h : e.move_cursor d = some e') :
    e'.tabs = e.tabs ∧ e'.current_tab = e.current_tab := by
  rcases ht : e.tabs.get? e.current_tab with _ | tab
  · simp only [Editor.move_cursor, ht, Option.bind_eq_bind, Option.none_bind] at h
    exact Option.noConfusion h
  rcases hw : e.windows.get? tab.window_focus with _ | w
  · simp only [Editor.move_cursor, ht, hw, Option.bind_eq_bind, Option.some_bind,
      Option.none_bind] at h
    exact Option.noConfusion h
  simp only [Editor.move_cursor, ht, hw, Option.pure_def, Option.bind_eq_bind,
    Option.some_bind] at h
  injection h with h
  subst h
  exact ⟨rfl, rfl⟩

lemma rotate_fwd_inv (e e' : Editor) (h : e.rotate_focus_forward = some e') :
    e'.tabs.length = e.tabs.length ∧ e'.current_tab = e.current_tab := by
  rcases hwf : e.window_focus? with _ | idx
  · simp only [Editor.rotate_focus_forward, hwf, Option.bind_eq_bind, Option.none_bind] at h
    exact Option.noConfusion h
  simp only [Editor.rotate_focus_forward, hwf, Option.bind_eq_bind, Option.some_bind] at h
  exact set_window_focus_inv _ _ _ h

lemma rotate_bwd_inv (e e' : Editor) (h : e.rotate_focus_backward = some e') :
    e'.tabs.length = e.tabs.length ∧ e'.current_tab = e.current_tab := by
  rcases hwf : e.window_focus? with _ | idx
  · simp only [Editor.rotate_focus_backward, hwf, Option.bind_eq_bind, Option.none_bind] at h
    exact Option.noConfusion h
  simp only [Editor.rotate_focus_backward, hwf, Option.bind_eq_bind, Option.some_bind] at h
  exact set_window_focus_inv _ _ _ h

lemma move_focus_inv (e e' : Editor) (d : Direction) (h : e.move_focus d = some e') :
    e'.tabs.length = e.tabs.length ∧ e'.current_tab = e.current_tab := by
  rcases hs : e.send_cursor_focus_beam d with _ | r
  · simp only [Editor.move_focus, hs, Option.bind_eq_bind, Option.none_bind] at h
    exact Option.noConfusion h
  rcases r with _ | id
  · simp only [Editor.move_focus, hs, Option.pure_def, Option.bind_eq_bind,
      Option.some_bind] at h
    injection h with h
    subst h
    exact ⟨rfl, rfl⟩
  · simp only [Editor.move_focus, hs, Option.bind_eq_bind, Option.some_bind] at h
    exact set_window_focus_inv _ _ _ h

/-- C10: from a freshly constructed editor, every modelled operation keeps
the tab list non-empty and the current-tab index within it. -/
theorem c10_tab_invariant (e : Editor) (h : ReachE e) :
    e.tabs ≠ [] ∧ e.current_tab < e.tabs.length := by
  induction h with
  | new size =>
    exact ⟨by simp [Editor.new, Editor.new_tab], by simp [Editor.new, Editor.new_tab]⟩
  | emit e m h ih => exact ih
  | forceRedraw e h ih => exact ih
  | newWindow e h ih =>
    unfold Editor.new_window
    rcases hf : (List.range e.windows.length).find?
        (fun id => !(((e.windows.get? id).map Window.is_open).getD true)) with _ | id
    · exact ih
    · exact ih
  | tabOpen e e' h hs ih =>
    simp only [Editor.tab_open, Editor.new_tab] at hs
    obtain ⟨h1, h2, h3⟩ := set_current_tab_inv _ _ _ hs
    refine ⟨?_, ?_⟩
    · rw [h1]
      exact List.length_pos.mp (by omega)
    · rw [h1, h2]
      exact h3
  | tabClose e e' h hs ih =>
    by_cases h1 : e.tabs.length = 1
    · rw [Editor.tab_close, if_pos h1] at hs
      injection hs with hs
      subst hs
      exact ih
    · rw [Editor.tab_close, if_neg h1] at hs
      rcases ht : e.tabs.get? e.current_tab with _ | tab
      · simp only [ht, Option.bind_eq_bind, Option.none_bind] at hs
        exact Option.noConfusion hs
      have hcur : e.current_tab < e.tabs.length := (List.get?_eq_some.mp ht).1
      have hlen : (e.tabs.eraseIdx e.current_tab).length = e.tabs.length - 1 := by
        rw [List.eraseIdx_eq_take_drop_succ]
        simp only [List.length_append, List.length_take, List.length_drop]
        omega
      simp only [ht, Option.pure_def, Option.bind_eq_bind, Option.some_bind] at hs
      by_cases hb : e.current_tab = (e.tabs.eraseIdx e.current_tab).length
      · rw [if_pos hb] at hs
        obtain ⟨g1, g2, g3⟩ := set_current_tab_inv _ _ _ hs
        refine ⟨?_, ?_⟩
        · rw [g1]
          exact List.length_pos.mp (by omega)
        · rw [g1, g2]
          exact g3
      · rw [if_neg hb] at hs
        injection hs with hs
        subst hs
        refine ⟨?_, ?_⟩
        · refine List.length_pos.mp ?_
          show 0 < (e.tabs.eraseIdx e.current_tab).length
          omega
        · show e.current_tab < (e.tabs.eraseIdx e.current_tab).length
          omega
  | tabNext e e' h hs ih =>
    unfold Editor.tab_next at hs
    obtain ⟨h1, h2, h3⟩ := set_current_tab_inv _ _ _ hs
    refine ⟨by rw [h1]; exact List.length_pos.mp (by omega), by rw [h1, h2]; exact h3⟩
  | tabPrev e e' h hs ih =>
    unfold Editor.tab_previous at hs
    obtain ⟨h1, h2, h3⟩ := set_current_tab_inv _ _ _ hs
    refine ⟨by rw [h1]; exact List.length_pos.mp (by omega), by rw [h1, h2]; exact h3⟩
  | moveCursor e e' d h hs ih =>
    obtain ⟨h1, h2⟩ := move_cursor_inv _ _ _ hs
    rw [h1, h2]
    exact ih
  | rotateFwd e e' h hs ih =>
    obtain ⟨h1, h2⟩ := rotate_fwd_inv _ _ hs
    refine ⟨List.length_pos.mp ?_, ?_⟩
    · rw [h1]
      exact List.length_pos.mpr ih.1
    · rw [h1, h2]
      exact ih.2
  | rotateBwd e e' h hs ih =>
    obtain ⟨h1, h2⟩ := rotate_bwd_inv _ _ hs
    refine ⟨List.length_pos.mp ?_, ?_⟩
    · rw [h1]
      exact List.length_pos.mpr ih.1
    · rw [h1, h2]
      exact ih.2
  | moveFocus e e' d h hs ih =>
    obtain ⟨h1, h2⟩ := move_focus_inv _ _ _ hs
    refine ⟨List.length_pos.mp ?_, ?_⟩
    · rw [h1]
      exact List.length_pos.mpr ih.1
    · rw [h1, h2]
      exact ih.2
  | vsplit e e' h hs ih =>
    obtain ⟨h1, h2⟩ := vertical_split_inv _ _ hs
    refine ⟨List.length_pos.mp ?_, ?_⟩
    · rw [h1]
      exact List.length_pos.mpr ih.1
    · rw [h1, h2]
      exact ih.2
  | hsplit e e' h hs ih =>
    obtain ⟨h1, h2⟩ := horizontal_split_inv _ _ hs
    refine ⟨List.length_pos.mp ?_, ?_⟩
    · rw [h1]
      exact List.length_pos.mpr ih.1
    · rw [h1, h2]
      exact ih.2

/-- C10 witness: the invariant at a freshly constructed editor. -/
theorem c10_witness :
    (Editor.new ⟨20, 10⟩).tabs ≠ [] ∧
    (Editor.new ⟨20, 10⟩).current_tab < (Editor.new ⟨20, 10⟩).tabs.length :=
  c10_tab_invariant (Editor.new ⟨20, 10⟩) (ReachE.new ⟨20, 10⟩)

end Tek
